import Mathlib

/-!
Verification development for the SRT subtitle processor
(`src/srt_processor`): a shallow embedding of its data model
(`models/subtitle.py`), parser (`core/parser.py`), language detector
(`core/language_detector.py`), validator and orchestrator
(`core/processor.py`) and the per-language line engines
(`processors/chinese.py`, `processors/english.py`,
`processors/korean.py`), together with theorems about the embedded
code.

Modelling conventions:
* a Python `str` is modelled as `List Char` (`PyStr`); Unicode code
  points are `Char`;
* Python `float` arithmetic (reading speed, language scores) is
  modelled as exact rational arithmetic over `ℚ`;
* Python `str.isdigit` is modelled on ASCII digits (the only digits
  produced by the serialiser and used in the sources);
* timestamps (`datetime.timedelta`) are modelled as a natural number
  of milliseconds, the precision of the SRT wire format.
-/

/-! ## Python string primitives -/

abbrev PyStr := List Char

/-- The whitespace code points stripped by Python `str.strip()`. -/
def pyWsChars : List Char :=
  [' ', '\t', '\n', '\r', Char.ofNat 11, Char.ofNat 12, Char.ofNat 0x1c,
   Char.ofNat 0x1d, Char.ofNat 0x1e, Char.ofNat 0x1f, Char.ofNat 0x85,
   Char.ofNat 0xa0, Char.ofNat 0x1680, Char.ofNat 0x2000, Char.ofNat 0x2001,
   Char.ofNat 0x2002, Char.ofNat 0x2003, Char.ofNat 0x2004, Char.ofNat 0x2005,
   Char.ofNat 0x2006, Char.ofNat 0x2007, Char.ofNat 0x2008, Char.ofNat 0x2009,
   Char.ofNat 0x200a, Char.ofNat 0x2028, Char.ofNat 0x2029, Char.ofNat 0x202f,
   Char.ofNat 0x205f, Char.ofNat 0x3000]

def pyIsWs (c : Char) : Bool := pyWsChars.contains c

/-- Python `str.lstrip()`. -/
def lstripL : PyStr → PyStr
  | [] => []
  | c :: cs => if pyIsWs c then lstripL cs else c :: cs

/-- Python `str.rstrip()`. -/
def rstripL (s : PyStr) : PyStr := (lstripL s.reverse).reverse

/-- Python `str.strip()`. -/
def stripL (s : PyStr) : PyStr := rstripL (lstripL s)

def isAsciiDigit (c : Char) : Bool := 48 ≤ c.toNat && c.toNat ≤ 57

/-- Python `str.isdigit()` (ASCII-digit model). -/
def pyIsDigitStr (s : PyStr) : Bool := !s.isEmpty && s.all isAsciiDigit

/-- Base-10 value of a big-endian digit string. -/
def digitsVal (s : PyStr) : ℕ := s.foldl (fun a c => 10 * a + (c.toNat - 48)) 0

/-- Python `int(s)`: optional surrounding whitespace, optional sign,
then a non-empty run of digits (digit-group underscores are not
modelled; they do not occur in the sources' inputs). -/
def pyInt (s : PyStr) : Option ℤ :=
  let t := stripL s
  match t with
  | '-' :: r => if r ≠ [] ∧ r.all isAsciiDigit then some (-(digitsVal r : ℤ)) else none
  | '+' :: r => if r ≠ [] ∧ r.all isAsciiDigit then some ((digitsVal r : ℤ)) else none
  | r => if r ≠ [] ∧ r.all isAsciiDigit then some ((digitsVal r : ℤ)) else none

/-- Decimal rendering of a natural number, as produced by Python
`str(n)` for `n ≥ 0`; fuelled so that it evaluates in the kernel. -/
def natToCharsF : ℕ → ℕ → PyStr
  | 0, _ => []
  | f + 1, n =>
    if n < 10 then [Nat.digitChar n]
    else natToCharsF f (n / 10) ++ [Nat.digitChar (n % 10)]

def natToChars (n : ℕ) : PyStr := natToCharsF (n + 1) n

/-- Python `f"{n:02d}"`. -/
def pad2 (n : ℕ) : PyStr := if n < 10 then '0' :: natToChars n else natToChars n

/-- Python `f"{n:03d}"`. -/
def pad3 (n : ℕ) : PyStr :=
  if n < 10 then '0' :: '0' :: natToChars n
  else if n < 100 then '0' :: natToChars n
  else natToChars n

def startsWithL : PyStr → PyStr → Bool
  | [], _ => true
  | _ :: _, [] => false
  | p :: ps, c :: cs => p = c && startsWithL ps cs

/-- Worker for Python `str.split(sep)` (`sep ≠ ""`): `skip` counts
separator characters still to be consumed after a match. -/
def splitGo (sep : PyStr) : ℕ → PyStr → PyStr → List PyStr
  | _, acc, [] => [acc.reverse]
  | 0, acc, c :: cs =>
    if startsWithL sep (c :: cs) then
      acc.reverse :: splitGo sep (sep.length - 1) [] cs
    else
      splitGo sep 0 (c :: acc) cs
  | k + 1, acc, _ :: cs => splitGo sep k acc cs

/-- Python `str.split(sep)` for a non-empty separator. -/
def pySplit (sep s : PyStr) : List PyStr := splitGo sep 0 [] s

/-- Worker for no-argument `str.split()`. -/
def splitWsGo : PyStr → PyStr → List PyStr
  | acc, [] => if acc.isEmpty then [] else [acc.reverse]
  | acc, c :: cs =>
    if pyIsWs c then
      if acc.isEmpty then splitWsGo [] cs else acc.reverse :: splitWsGo [] cs
    else splitWsGo (c :: acc) cs

/-- Python `str.split()`: split on whitespace runs, no empty pieces. -/
def pySplitWs (s : PyStr) : List PyStr := splitWsGo [] s

/-- Worker for Python `str.find(sub)`. -/
def pyFindGo (sub : PyStr) : ℕ → PyStr → Option ℕ
  | _, [] => if sub.isEmpty then some 0 else none
  | i, c :: cs => if startsWithL sub (c :: cs) then some i else pyFindGo sub (i + 1) cs

/-- Python `str.find(sub)`, `none` standing for `-1`.  The `[]` case of
the worker returns the current index for an empty pattern, matching
`"x".find("") = 0`. -/
def pyFind (sub s : PyStr) : Option ℕ :=
  match pyFindGo sub 0 s with
  | some i => some i
  | none => if sub.isEmpty then some s.length else none

/-- Python `sep.join(xs)`. -/
def pyJoin (sep : PyStr) : List PyStr → PyStr
  | [] => []
  | [x] => x
  | x :: y :: xs => x ++ sep ++ pyJoin sep (y :: xs)

/-- Python `str.lower()` (ASCII model, all uses in the sources are
ASCII keyword comparisons). -/
def pyLower (s : PyStr) : PyStr := s.map Char.toLower

/-- Python `str.strip(chars)`: strip characters of `set` from both
ends. -/
def stripCharsL (set : List Char) (s : PyStr) : PyStr :=
  ((s.dropWhile (fun c => set.contains c)).reverse.dropWhile
    (fun c => set.contains c)).reverse

/-- `line[i]` with a null default (all uses guard `i < len`). -/
def charAt (s : PyStr) (i : ℕ) : Char := s.getD i (Char.ofNat 0)

/-- Python `for i in range(hi - 1, lo - 1, -1): if p i: return i`,
scanning indices downwards from `hi - 1` to `lo`. -/
def findRevAux (p : ℕ → Bool) (lo : ℕ) : ℕ → Option ℕ
  | 0 => none
  | k + 1 => if p (lo + k) then some (lo + k) else findRevAux p lo k

def findRevRange (p : ℕ → Bool) (lo hi : ℕ) : Option ℕ :=
  findRevAux p lo (hi - lo)

/-! ## Data model (`models/subtitle.py`) -/

/-- The source's `Language` enum (renamed: `Language` is taken in the ambient libraries). -/
inductive Lang
  | auto | zh | en | ko | ja
deriving DecidableEq, Repr

inductive ContentType
  | adult | children
deriving DecidableEq, Repr

/-- `TimeCode`: a start/end timestamp pair, in milliseconds. -/
structure TimeCode where
  startMs : ℕ
  endMs : ℕ
deriving DecidableEq, Repr

structure SubtitleBlock where
  index : ℕ
  timeCode : TimeCode
  lines : List PyStr
  language : Option Lang
  isSdh : Bool
deriving DecidableEq, Repr

structure SRTDocument where
  blocks : List SubtitleBlock
  sourceFile : Option PyStr
  detectedLang : Option Lang
  encoding : PyStr
deriving DecidableEq, Repr

/-- `SubtitleBlock.text`: lines joined by `"\n"`. -/
def SubtitleBlock.text (b : SubtitleBlock) : PyStr := pyJoin ['\n'] b.lines

/-- `SubtitleBlock.character_count`: sum of per-line lengths. -/
def SubtitleBlock.character_count (b : SubtitleBlock) : ℕ :=
  (b.lines.map List.length).sum

/-- `SubtitleBlock.get_reading_speed`: characters per second, `0` when
the duration is non-positive. -/
def SubtitleBlock.get_reading_speed (b : SubtitleBlock) : ℚ :=
  let durMs : ℤ := (b.timeCode.endMs : ℤ) - (b.timeCode.startMs : ℤ)
  if durMs ≤ 0 then 0
  else (b.character_count : ℚ) / ((durMs : ℚ) / 1000)

/-- `ProcessingConfig` (the fields consumed by the core; the
CLI/batch-only fields `force_encoding`, `batch_mode`,
`batch_directory`, `check_only`, `output_violation` belong to the
excluded I/O wrapper layer). -/
structure ProcessingConfig where
  language : Lang
  contentType : ContentType
  sdhMode : Bool
  noSpeedCheck : Bool
  noPunctFix : Bool
  removeSdh : Bool
deriving DecidableEq, Repr

/-- `ProcessingConfig.get_character_limit` (`limits.get(language, 42)`
gives `42` for `AUTO`). -/
def ProcessingConfig.get_character_limit
    (cfg : ProcessingConfig) (language : Lang) : ℕ :=
  match language with
  | .zh => if cfg.sdhMode then 18 else 16
  | .en => 42
  | .ko => 16
  | .ja => if cfg.sdhMode then 16 else 13
  | .auto => 42

/-- `ProcessingConfig.get_reading_speed_limit` (chars/second;
`speeds.get(language, 20.0)` gives `20` for `AUTO`). -/
def ProcessingConfig.get_reading_speed_limit
    (cfg : ProcessingConfig) (language : Lang) : ℚ :=
  match cfg.contentType, language with
  | .adult, .zh => 9
  | .adult, .en => 20
  | .adult, .ko => 12
  | .adult, .ja => if cfg.sdhMode then 7 else 4
  | .adult, .auto => 20
  | .children, .zh => 7
  | .children, .en => 17
  | .children, .ko => 9
  | .children, .ja => if cfg.sdhMode then 7 else 4
  | .children, .auto => 20

/-! ## Language detector (`core/language_detector.py`) -/

def isHanChar (c : Char) : Bool := 0x4e00 ≤ c.toNat && c.toNat ≤ 0x9fff

def isHangulChar (c : Char) : Bool := 0xac00 ≤ c.toNat && c.toNat ≤ 0xd7af

def isHiraganaChar (c : Char) : Bool := 0x3040 ≤ c.toNat && c.toNat ≤ 0x309f

def isKatakanaChar (c : Char) : Bool := 0x30a0 ≤ c.toNat && c.toNat ≤ 0x30ff

def isAsciiLetter (c : Char) : Bool :=
  ('a' ≤ c && c ≤ 'z') || ('A' ≤ c && c ≤ 'Z')

/-- The `chinese_punct` (= `korean_punct`) character class. -/
def chinesePunctChars : List Char := "。！？，：（）【】《》".data

/-- The `japanese_punct` character class. -/
def japanesePunctChars : List Char := "。！？、：（）【】《》〈〉".data

/-- The counts built by `LanguageDetector._count_characters`. -/
structure CharCounts where
  chinese : ℕ
  korean : ℕ
  hiragana : ℕ
  katakana : ℕ
  ascii : ℕ
  chinesePunct : ℕ
  koreanPunct : ℕ
  japanesePunct : ℕ
  totalChars : ℕ
deriving DecidableEq, Repr

/-- `LanguageDetector._count_characters` (`total_chars` counts the text
with U+0020 spaces removed). -/
def count_characters (text : PyStr) : CharCounts where
  chinese := (text.filter isHanChar).length
  korean := (text.filter isHangulChar).length
  hiragana := (text.filter isHiraganaChar).length
  katakana := (text.filter isKatakanaChar).length
  ascii := (text.filter isAsciiLetter).length
  chinesePunct := (text.filter (fun c => chinesePunctChars.contains c)).length
  koreanPunct := (text.filter (fun c => chinesePunctChars.contains c)).length
  japanesePunct := (text.filter (fun c => japanesePunctChars.contains c)).length
  totalChars := (text.filter (fun c => c ≠ ' ')).length

/-- The scores of `LanguageDetector._calculate_language_scores` before
the `min_threshold` floor. -/
def rawScores (cc : CharCounts) : Lang → ℚ :=
  let total : ℚ := (max cc.totalChars 1 : ℕ)
  fun l =>
    match l with
    | .zh => (cc.chinese : ℚ) / total * 10 + (cc.chinesePunct : ℚ) / total * 2
    | .en =>
      let cjk : ℕ := cc.chinese + cc.korean + cc.hiragana + cc.katakana
      if (cjk : ℚ) / total < 1 / 10 then (cc.ascii : ℚ) / total * 10
      else (cc.ascii : ℚ) / total * 2
    | .ko => (cc.korean : ℚ) / total * 10 + (cc.koreanPunct : ℚ) / total * 2
    | .ja =>
      ((cc.hiragana : ℚ) / total + (cc.katakana : ℚ) / total
        + (cc.chinese : ℚ) / total * (1 / 2)) * 10
        + (cc.japanesePunct : ℚ) / total * 2
    | .auto => 0

/-- `LanguageDetector._calculate_language_scores`: scores under the
`0.01` threshold are floored to `0`. -/
def calculate_language_scores (cc : CharCounts) (l : Lang) : ℚ :=
  let s := rawScores cc l
  if s < 1 / 100 then 0 else s

/-- `max(scores.keys(), key=lambda lang: scores[lang])`: the first
language (in the dict's insertion order Chinese, English, Korean,
Japanese) attaining the maximal score. -/
def argmaxLang (f : Lang → ℚ) : Lang :=
  [Lang.en, Lang.ko, Lang.ja].foldl (fun best l => if f l > f best then l else best)
    Lang.zh

/-- `LanguageDetector.detect_line_language`. -/
def detect_line_language (line : PyStr) : Lang :=
  if stripL line = [] then .en
  else argmaxLang (calculate_language_scores (count_characters line))

/-- `LanguageDetector._detect_block_language`. -/
def detect_block_language (b : SubtitleBlock) : Lang :=
  if stripL b.text = [] then .en
  else argmaxLang (calculate_language_scores (count_characters b.text))

/-- `LanguageDetector._analyze_character_distribution`: counts over the
blocks' texts joined by a single space. -/
def analyze_character_distribution (blocks : List SubtitleBlock) : CharCounts :=
  count_characters (pyJoin [' '] (blocks.map SubtitleBlock.text))

/-- `LanguageDetector.detect_language` (whole-document granularity). -/
def detect_language (doc : SRTDocument) : Lang :=
  if doc.blocks = [] then .en
  else
    argmaxLang (calculate_language_scores (analyze_character_distribution doc.blocks))

/-! ## Compliance validator (`core/processor.py`) -/

/-- `SRTProcessor.processors` registers engines for Chinese, English
and Korean only (the source comment: "Japanese processor would go
here"). -/
def processorExists : Lang → Bool
  | .zh => true
  | .en => true
  | .ko => true
  | _ => false

/-- `block.language or document.detected_language or Language.ENGLISH`
(`None` is the only falsy value that can occur). -/
def resolveBlockLang (docLang : Option Lang) (b : SubtitleBlock) : Lang :=
  match b.language with
  | some l => l
  | none => docLang.getD .en

/-- `validate_reading_speed` (identical in all three processors): the
block's speed is compared against the limit for the config's own
language field. -/
def validate_reading_speed (cfg : ProcessingConfig) (b : SubtitleBlock) : Bool :=
  if cfg.noSpeedCheck then true
  else b.get_reading_speed ≤ cfg.get_reading_speed_limit cfg.language

inductive WarnKind
  | charLimit | speed
deriving DecidableEq, Repr

/-- A validator warning, keyed the way `check_file_only` groups the
warning strings: by the `Block <index>` they report. -/
structure Warning where
  blockIndex : ℕ
  kind : WarnKind
deriving DecidableEq, Repr

/-- The warnings `SRTProcessor.validate_document` records for one
block: nothing at all when the block's resolved language has no
registered processor; otherwise one character-limit warning per
non-empty line longer than the limit of its per-line detected
language, plus a reading-speed warning when speed checking is on and
`validate_reading_speed` fails. -/
def blockWarnings (cfg : ProcessingConfig) (docLang : Option Lang)
    (b : SubtitleBlock) : List Warning :=
  if processorExists (resolveBlockLang docLang b) then
    (b.lines.filterMap fun line =>
      if stripL line = [] then none
      else if line.length > cfg.get_character_limit (detect_line_language line) then
        some ⟨b.index, .charLimit⟩
      else none)
    ++ (if cfg.noSpeedCheck then []
        else if validate_reading_speed cfg b then []
        else [⟨b.index, .speed⟩])
  else []

/-- `SRTProcessor.validate_document`: all warnings of a document. -/
def validate_document_warnings (cfg : ProcessingConfig) (doc : SRTDocument) :
    List Warning :=
  doc.blocks.flatMap (blockWarnings cfg doc.detectedLang)

/-! ## SRT parser (`core/parser.py`) and serialiser -/

inductive ParseErr
  | expectedIndex
  | eofAfterIndex
  | invalidTime
  | badTimeValue
  | noText
  | outOfFuel
deriving DecidableEq, Repr

def scanDigit2 : PyStr → Option PyStr
  | a :: b :: r => if isAsciiDigit a && isAsciiDigit b then some r else none
  | _ => none

def scanDigit3 : PyStr → Option PyStr
  | a :: b :: c :: r =>
    if isAsciiDigit a && isAsciiDigit b && isAsciiDigit c then some r else none
  | _ => none

def scanChar (x : Char) : PyStr → Option PyStr
  | c :: r => if c = x then some r else none
  | [] => none

/-- One `\d{2}:\d{2}:\d{2},\d{3}` group of the parser's
`time_pattern`. -/
def scanTimeStamp (s : PyStr) : Option PyStr := do
  let r1 ← scanDigit2 s
  let r2 ← scanChar ':' r1
  let r3 ← scanDigit2 r2
  let r4 ← scanChar ':' r3
  let r5 ← scanDigit2 r4
  let r6 ← scanChar ',' r5
  scanDigit3 r6

def scanLit (pat : PyStr) (s : PyStr) : Option PyStr :=
  if startsWithL pat s then some (s.drop pat.length) else none

/-- `SRTParser.time_pattern.match(line)`: the anchored-prefix regex
`(\d{2}:\d{2}:\d{2},\d{3})\s*-->\s*(\d{2}:\d{2}:\d{2},\d{3})`.  The
greedy `\s*` needs no backtracking here: shortening it exposes a
whitespace character where a digit or `-` is required. -/
def timePatternMatch (s : PyStr) : Bool :=
  match scanTimeStamp s with
  | none => false
  | some r1 =>
    match scanLit "-->".data (r1.dropWhile pyIsWs) with
    | none => false
    | some r2 => (scanTimeStamp (r2.dropWhile pyIsWs)).isSome

/-- The four integers `TimeCode._parse_time` hands to `timedelta`. -/
structure TimeFields where
  hours : ℤ
  minutes : ℤ
  seconds : ℤ
  milliseconds : ℤ
deriving DecidableEq, Repr

/-- `TimeCode._parse_time`: split on `":"` (two-way unpack on `","`
inside), `int()` on each piece; `none` models the `ValueError` the
parser wraps into an `SRTParseError`. -/
def parse_time (s : PyStr) : Option TimeFields :=
  match pySplit [':'] s with
  | [hS, mS, smS] =>
    match pySplit [','] smS with
    | [sS, msS] =>
      match pyInt hS, pyInt mS, pyInt sS, pyInt msS with
      | some h, some m, some sec, some ms => some ⟨h, m, sec, ms⟩
      | _, _, _, _ => none
    | _ => none
  | _ => none

/-- `TimeCode.from_srt_time`: split the whole line on `" --> "` and
parse both sides. -/
def from_srt_time (s : PyStr) : Option (TimeFields × TimeFields) :=
  match pySplit " --> ".data s with
  | [a, b] =>
    match parse_time a, parse_time b with
    | some f, some g => some (f, g)
    | _, _ => none
  | _ => none

/-- The parser's complete handling of a time line: the regex gate,
then `from_srt_time`. -/
def parseTimeLine (s : PyStr) : Option (TimeFields × TimeFields) :=
  if timePatternMatch s then from_srt_time s else none

/-- `timedelta(hours=h, minutes=m, seconds=s, milliseconds=ms)`, in
milliseconds. -/
def TimeFields.toMs (f : TimeFields) : ℤ :=
  f.hours * 3600000 + f.minutes * 60000 + f.seconds * 1000 + f.milliseconds

/-- The `TimeCode` built from parsed fields (for every input the
parser accepts, both totals are non-negative, so `Int.toNat` is
exact). -/
def fieldsToTimeCode (fg : TimeFields × TimeFields) : TimeCode :=
  ⟨fg.1.toMs.toNat, fg.2.toMs.toNat⟩

/-- The parser's stop lookahead inside the text-line loop: a line that
strips to a bare integer, followed by a line whose stripped form
matches the time pattern. -/
def stopLook : List PyStr → Bool
  | a :: b :: _ => pyIsDigitStr (stripL a) && timePatternMatch (stripL b)
  | _ => false

/-- The text-collection loop of `SRTParser._parse_block`: gather
`line.rstrip()` until the stop lookahead fires or input ends. -/
def collectText : List PyStr → List PyStr × List PyStr
  | [] => ([], [])
  | l :: rest =>
    if stopLook (l :: rest) then ([], l :: rest)
    else
      let p := collectText rest
      (rstripL l :: p.1, p.2)

/-- The trailing-blank trim at the end of `SRTParser._parse_block`. -/
def trimTrailingEmpty (ls : List PyStr) : List PyStr :=
  (ls.reverse.dropWhile (fun l => (stripL l).isEmpty)).reverse

/-- `SRTParser._parse_block`. -/
def parse_block (ls : List PyStr) :
    Except ParseErr (Option SubtitleBlock × List PyStr) :=
  let ls1 := ls.dropWhile (fun l => (stripL l).isEmpty)
  match ls1 with
  | [] => .ok (none, [])
  | idxLine :: rest =>
    let idxS := stripL idxLine
    if ¬ pyIsDigitStr idxS then .error .expectedIndex
    else
      match rest with
      | [] => .error .eofAfterIndex
      | timeLine :: rest2 =>
        let tS := stripL timeLine
        if ¬ timePatternMatch tS then .error .invalidTime
        else
          match from_srt_time tS with
          | none => .error .badTimeValue
          | some fg =>
            let texts := trimTrailingEmpty (collectText rest2).1
            if texts.isEmpty then .error .noText
            else
              .ok (some ⟨digitsVal idxS, fieldsToTimeCode fg, texts, none, false⟩,
                   (collectText rest2).2)

/-- The `while` loop of `SRTParser._parse_content`, fuelled (each
produced block consumes at least two lines, so `length + 1` fuel never
runs out; see `parseBlocksF_fuel`). -/
def parseBlocksF : ℕ → List PyStr → Except ParseErr (List SubtitleBlock)
  | 0, _ => .error .outOfFuel
  | f + 1, ls =>
    match parse_block ls with
    | .error e => .error e
    | .ok (none, _) => .ok []
    | .ok (some b, rem) => (parseBlocksF f rem).map (b :: ·)

/-- `SRTParser._parse_content`: strip the content, split it into
lines, run the block loop. -/
def parse_content (content : PyStr) : Except ParseErr (List SubtitleBlock) :=
  let lines := pySplit ['\n'] (stripL content)
  parseBlocksF (lines.length + 1) lines

/-- The canonical form `f"{h:02d}:{m:02d}:{s:02d},{ms:03d}"`. -/
def renderTimeFields (h m s ms : ℕ) : PyStr :=
  pad2 h ++ ':' :: pad2 m ++ ':' :: pad2 s ++ ',' :: pad3 ms

/-- `TimeCode._format_time` on a millisecond total. -/
def format_time (ms : ℕ) : PyStr :=
  renderTimeFields (ms / 1000 / 3600) (ms / 1000 % 3600 / 60) (ms / 1000 % 60)
    (ms % 1000)

/-- `TimeCode.to_srt_format`. -/
def TimeCode.to_srt_format (tc : TimeCode) : PyStr :=
  format_time tc.startMs ++ " --> ".data ++ format_time tc.endMs

/-- The lines one block contributes to `SRTDocument.to_srt_format`:
index, time line, the text lines, then the empty separator line. -/
def blockWireLines (b : SubtitleBlock) : List PyStr :=
  natToChars b.index :: b.timeCode.to_srt_format :: (b.lines ++ [[]])

/-- `SRTDocument.to_srt_format`: the wire lines of all blocks joined
by `"\n"`. -/
def SRTDocument.to_srt_format (doc : SRTDocument) : PyStr :=
  pyJoin ['\n'] (doc.blocks.flatMap blockWireLines)

/-! ## SDH detection and removal (`models/subtitle.py`) -/

/-- The music glyphs of the `♪+|🎵+|🎶+` patterns. -/
def musicChars : List Char := ['♪', Char.ofNat 0x1F3B5, Char.ofNat 0x1F3B6]

/-- `^♪+$` / `^🎵+$` / `^🎶+$` on a non-empty stripped text. -/
def musicOnlyMatch (ft : PyStr) : Bool :=
  ft.all (· = '♪') || ft.all (· = Char.ofNat 0x1F3B5) || ft.all (· = Char.ofNat 0x1F3B6)

/-- The bracket pairs of the `audio_description_patterns`. -/
def audioDescPairs : List (Char × Char) :=
  [('[', ']'), ('(', ')'), ('（', '）'), ('【', '】'), ('《', '》'),
   ('［', '］'), ('〔', '〕'), ('〈', '〉')]

/-- `^open\s*.*?\s*close$` on the stripped block text: first character
is the opener, last is the closer, and between the whitespace margins
(which `\s*` may absorb, newlines included) the middle crosses no
newline (`.` does not match `\n`). -/
def bracketOnlyMatch (p : Char × Char) (ft : PyStr) : Bool :=
  match ft with
  | [] => false
  | x :: rest =>
    if rest.isEmpty then false
    else x == p.1 && rest.getLast? == some p.2
      && !((stripL rest.dropLast).contains '\n')

/-- Suffix after the first occurrence of `c`, failing on a newline
first: the reach of a lazy `.*?` before a literal closer. -/
def seekCloseNoNl (c : Char) : PyStr → Option PyStr
  | [] => none
  | x :: xs =>
    if x = c then some xs else if x = '\n' then none else seekCloseNoNl c xs

/-- Suffix after the first occurrence of `c`: the reach of a greedy
`[^c]*` before a literal closer (newlines allowed). -/
def seekCloseAny (c : Char) : PyStr → Option PyStr
  | [] => none
  | x :: xs => if x = c then some xs else seekCloseAny c xs

/-- One left-to-right pass of `re.sub` over the alternation
`\[.*?\]|\(.*?\)|【.*?】|《.*?》`: at an opener, delete through the
nearest closer on the same line, else keep the character.  Fuelled on
the input length so that it evaluates in the kernel (the remainder
after a match is a strict suffix). -/
def removeCueSpansF (pairs : List (Char × Char)) : ℕ → PyStr → PyStr
  | 0, s => s
  | _ + 1, [] => []
  | f + 1, ch :: rest =>
    match pairs.find? (fun p => p.1 = ch) with
    | some p =>
      match seekCloseNoNl p.2 rest with
      | some rest' => removeCueSpansF pairs f rest'
      | none => ch :: removeCueSpansF pairs f rest
    | none => ch :: removeCueSpansF pairs f rest

def removeCueSpans (pairs : List (Char × Char)) (s : PyStr) : PyStr :=
  removeCueSpansF pairs s.length s

/-- `re.sub` for one `open\s*[^close]*\s*close` pattern of
`_remove_sdh_from_line`: delete from each opener through the nearest
closer (newlines allowed). -/
def removeSpanAllF (o c : Char) : ℕ → PyStr → PyStr
  | 0, s => s
  | _ + 1, [] => []
  | f + 1, ch :: rest =>
    if ch = o then
      match seekCloseAny c rest with
      | some rest' => removeSpanAllF o c f rest'
      | none => ch :: removeSpanAllF o c f rest
    else ch :: removeSpanAllF o c f rest

def removeSpanAll (o c : Char) (s : PyStr) : PyStr := removeSpanAllF o c s.length s

/-- `SubtitleBlock._clean_whitespace`: squeeze whitespace runs,
renormalise a leading dash to `"- "`, collapse a doubled dash, strip,
and drop a line that is only `"-"`. -/
def clean_whitespace (text : PyStr) : PyStr :=
  let rec collapse : Bool → PyStr → PyStr
    | _, [] => []
    | prevWs, c :: cs =>
      if pyIsWs c then
        if prevWs then collapse true cs else ' ' :: collapse true cs
      else c :: collapse false cs
  let c1 := collapse false text
  let c2 :=
    match c1 with
    | '-' :: t => '-' :: ' ' :: t.dropWhile pyIsWs
    | _ => c1
  let c3 :=
    match c2 with
    | '-' :: t =>
      match t.dropWhile pyIsWs with
      | '-' :: t2 => '-' :: ' ' :: t2.dropWhile pyIsWs
      | _ => c2
    | _ => c2
  let c4 := stripL c3
  if c4 = ['-'] then [] else c4

/-- `SubtitleBlock._remove_sdh_from_line`: the sequence of span
removals, then the whitespace cleanup. -/
def remove_sdh_from_line (line : PyStr) : PyStr :=
  let l1 := removeSpanAll '[' ']' line
  let l2 := removeSpanAll '(' ')' l1
  let l3 := removeSpanAll '（' '）' l2
  let l4 := removeSpanAll '【' '】' l3
  let l5 := removeSpanAll '《' '》' l4
  let l6 := l5.filter (fun ch => !(musicChars.contains ch))
  let l7 := removeSpanAll '［' '］' l6
  let l8 := removeSpanAll '〔' '〕' l7
  let l9 := removeSpanAll '〈' '〉' l8
  let l10 := removeSpanAll '「' '」' l9
  clean_whitespace l10

/-- `SubtitleBlock.clean_sdh_markers`. -/
def clean_sdh_markers (b : SubtitleBlock) : SubtitleBlock :=
  let cleaned := b.lines.filterMap fun line =>
    let orig := stripL line
    if orig.isEmpty then none
    else
      let cl := remove_sdh_from_line orig
      if (stripL cl).isEmpty then none else some cl
  { b with lines := cleaned }

/-- The residue `is_sdh_only_block` computes per line: music glyphs
removed, cue spans removed, a leading `-\s*` removed, stripped. -/
def sdhLineResidue (l : PyStr) : PyStr :=
  let t1 := l.filter (fun ch => !(musicChars.contains ch))
  let t2 := removeCueSpans [('[', ']'), ('(', ')'), ('【', '】'), ('《', '》')] t1
  let t3 :=
    match t2 with
    | '-' :: r => r.dropWhile pyIsWs
    | _ => t2
  stripL t3

/-- `SubtitleBlock.is_sdh_only_block`. -/
def is_sdh_only_block (b : SubtitleBlock) : Bool :=
  if b.lines.isEmpty then false
  else
    let ft := stripL b.text
    if ft.isEmpty then false
    else if musicOnlyMatch ft then true
    else if audioDescPairs.any (fun p => bracketOnlyMatch p ft) then true
    else
      b.lines.all fun line =>
        let l := stripL line
        l.isEmpty || (sdhLineResidue l).isEmpty

/-- `SRTDocument.remove_sdh_blocks_and_clean_content`: drop SDH-only
blocks, clean the survivors, keep only those with non-blank content,
renumber contiguously from 1. -/
def remove_sdh_blocks_and_clean_content (doc : SRTDocument) : SRTDocument :=
  let processed := doc.blocks.filterMap fun b =>
    if is_sdh_only_block b then none
    else
      let cb := clean_sdh_markers b
      if cb.lines.isEmpty then none
      else if cb.lines.any (fun l => !(stripL l).isEmpty) then some cb
      else none
  { doc with blocks := processed.enum.map fun p => { p.2 with index := p.1 + 1 } }

/-! ## Shared processor helpers -/

def endsWithL (pat s : PyStr) : Bool := startsWithL pat.reverse s.reverse

/-- `_process_dialogue_format`, the method shared verbatim by the
three processors: strip each line, drop blanks, rewrite a leading
`-\s*` to `"- "` (the regex `^-\s*(.*)$` fails, leaving the stripped
line unchanged, only when a newline survives past the dash). -/
def process_dialogue_format (lines : List PyStr) : List PyStr :=
  lines.filterMap fun line =>
    let l := stripL line
    if l.isEmpty then none
    else
      match l with
      | '-' :: t =>
        let body := t.dropWhile pyIsWs
        if body.contains '\n' then some l
        else some ('-' :: ' ' :: stripL body)
      | _ => some l

/-! ## Chinese processor (`processors/chinese.py`) -/

/-- `ChineseProcessor.punctuation` (two adjacent literals in the
source concatenate; the doubled ASCII apostrophe is kept). -/
def zhPunctChars : List Char :=
  "。！？，：；".data ++ [Char.ofNat 39, Char.ofNat 39] ++ "（）【】《》".data

/-- `ChineseProcessor.helper_words`. -/
def zhHelperChars : List Char := "的地得了吧呢啊哦嗯呀哇吗嘛".data

/-- `ChineseProcessor.sentence_endings`. -/
def zhSentenceEndChars : List Char := "。！？".data

/-- `ChineseProcessor._should_merge_with_current`. -/
def zh_should_merge (cfg : ProcessingConfig) (current next_line : PyStr) : Bool :=
  if current.isEmpty then false
  else if zhSentenceEndChars.contains (current.getLastD ' ') then false
  else if startsWithL "- ".data current != startsWithL "- ".data next_line then false
  else decide (current.length + next_line.length ≤ cfg.get_character_limit cfg.language)

/-- The accumulator loop of `ChineseProcessor._smart_merge_lines`
(Chinese joins with no separator). -/
def zh_merge_go (cfg : ProcessingConfig) : PyStr → List PyStr → List PyStr
  | current, [] => if current.isEmpty then [] else [current]
  | current, l :: ls =>
    let l' := stripL l
    if l'.isEmpty then zh_merge_go cfg current ls
    else if zh_should_merge cfg current l' then
      if current.isEmpty then zh_merge_go cfg l' ls
      else zh_merge_go cfg (current ++ l') ls
    else if current.isEmpty then zh_merge_go cfg l' ls
    else current :: zh_merge_go cfg l' ls

/-- `ChineseProcessor._smart_merge_lines`. -/
def smart_merge_lines_zh (cfg : ProcessingConfig) (lines : List PyStr) : List PyStr :=
  if lines.length ≤ 1 then lines else zh_merge_go cfg [] lines

/-- `ChineseProcessor._find_best_break_position`: helper words, then
punctuation, then spaces, each scanned downwards over the window; a
candidate past the limit is skipped and the scan continues. -/
def find_best_break_position_zh (line : PyStr) (limit : ℕ) : Option ℕ :=
  let ss := limit - 10
  let se := min line.length (limit + 3)
  match findRevRange
      (fun i => decide (i < line.length) && zhHelperChars.contains (charAt line i)
        && decide (i + 1 ≤ limit)) ss se with
  | some i => some (i + 1)
  | none =>
    match findRevRange
        (fun i => decide (i < line.length) && zhPunctChars.contains (charAt line i)
          && decide (i + 1 ≤ limit)) ss se with
    | some i => some (i + 1)
    | none =>
      findRevRange
        (fun i => decide (i < line.length) && (charAt line i == ' ')
          && decide (i ≤ limit)) ss se

/-- `ChineseProcessor._break_line_intelligently` up to (but not
including) its recursive call: `none` when the line is returned whole
(fits, the `< 3` no-break threshold, or a `< 5`-character tail);
otherwise the `(first_part, second_part)` the code recurses on. -/
def break_step_zh (cfg : ProcessingConfig) (line : PyStr) :
    Option (PyStr × PyStr) :=
  let limit := cfg.get_character_limit cfg.language
  if line.length ≤ limit then none
  else if line.length - limit < 3 then none
  else
    let bp := (find_best_break_position_zh line limit).getD limit
    let fp := rstripL (line.take bp)
    let sp := lstripL (line.drop bp)
    if sp.length < 5 then none else some (fp, sp)

/-- `ChineseProcessor._break_line_intelligently` (the recursion guard
`len(second_part) < len(line)` is the source's own safety check). -/
def break_line_intelligently_zh (cfg : ProcessingConfig) (line : PyStr) :
    List PyStr :=
  match break_step_zh cfg line with
  | none => [line]
  | some (fp, sp) =>
    if h : ¬ sp.isEmpty ∧ sp.length < line.length then
      fp :: break_line_intelligently_zh cfg sp
    else [fp]
termination_by line.length
decreasing_by exact h.2

/-- `ChineseProcessor._apply_line_breaking`. -/
def apply_line_breaking_zh (cfg : ProcessingConfig) (lines : List PyStr) :
    List PyStr :=
  lines.flatMap fun l =>
    if (stripL l).isEmpty then [] else break_line_intelligently_zh cfg l

/-- `ChineseProcessor._is_line_continuation.continuation_indicators`. -/
def zhContinuationWords : List PyStr :=
  ["，".data, "、".data, "和".data, "或".data, "但".data, "而".data,
   "因为".data, "所以".data, "如果".data, "那么".data]

/-- `ChineseProcessor._is_line_continuation`. -/
def is_line_continuation_zh (line : PyStr) : Bool :=
  let l := stripL line
  if l.isEmpty then false
  else if "，、".data.contains (l.getLastD ' ') then true
  else
    let ws := pySplitWs l
    if ws ≠ [] && zhContinuationWords.contains (ws.getLastD []) then true
    else decide (l.length < 8)

/-- `ChineseProcessor._add_missing_punctuation`: append `。` to the
stripped last line when it is a complete sentence. -/
def add_missing_punctuation_zh (lines : List PyStr) : List PyStr :=
  if lines.isEmpty then lines
  else
    let last_line := stripL (lines.getLastD [])
    if !last_line.isEmpty
        && !(zhPunctChars.contains (last_line.getLastD ' '))
        && !(endsWithL "...".data last_line)
        && !(startsWithL "♪".data last_line)
        && !(endsWithL "，".data last_line)
        && !(is_line_continuation_zh last_line) then
      lines.dropLast ++ [last_line ++ "。".data]
    else lines

/-- `ChineseProcessor.process_block`. -/
def process_block_zh (cfg : ProcessingConfig) (b : SubtitleBlock) : SubtitleBlock :=
  if b.lines.isEmpty then b
  else
    let p1 := process_dialogue_format b.lines
    let p2 := if p1.length > 1 then smart_merge_lines_zh cfg p1 else p1
    let p3 := apply_line_breaking_zh cfg p2
    let p4 := if cfg.noPunctFix then p3 else add_missing_punctuation_zh p3
    { b with lines := p4 }

/-! ## English processor (`processors/english.py`) -/

/-- `EnglishProcessor.conjunctions`. -/
def enConjunctions : List PyStr :=
  ["and".data, "but".data, "or".data, "nor".data, "for".data, "so".data,
   "yet".data, "because".data, "since".data, "although".data, "though".data,
   "while".data, "whereas".data, "however".data, "therefore".data,
   "moreover".data, "furthermore".data, "nevertheless".data, "nonetheless".data]

/-- `EnglishProcessor.prepositions`. -/
def enPrepositions : List PyStr :=
  ["in".data, "on".data, "at".data, "by".data, "for".data, "with".data,
   "from".data, "to".data, "of".data, "about".data, "under".data, "over".data,
   "through".data, "between".data, "among".data, "during".data, "before".data,
   "after".data, "above".data, "below".data, "across".data, "around".data,
   "behind".data, "beside".data]

/-- `EnglishProcessor.punctuation`
(`.,!?;:` quote backslash apostrophe parens brackets braces dashes). -/
def enPunctChars : List Char :=
  ".,!?;:".data ++ [Char.ofNat 34, Char.ofNat 92, Char.ofNat 39]
    ++ "()[]".data ++ [Char.ofNat 123, Char.ofNat 125] ++ "—–-".data

def enSentenceEndChars : List Char := ".!?".data

/-- `EnglishProcessor._should_merge_with_current`: after the three
early refusals (empty accumulator, sentence-final accumulator, two
dialogue lines) every branch of the source returns the same
`merged_length <= char_limit` comparison, with
`merged_length = len(current) + 1 + len(next_line)`. -/
def en_should_merge (cfg : ProcessingConfig) (current next_line : PyStr) : Bool :=
  if current.isEmpty then false
  else if enSentenceEndChars.contains (current.getLastD ' ') then false
  else if startsWithL "- ".data current && startsWithL "- ".data next_line then false
  else
    decide (current.length + 1 + next_line.length
      ≤ cfg.get_character_limit cfg.language)

/-- The accumulator loop of `EnglishProcessor._smart_merge_lines`,
with its dialogue-marker case split. -/
def en_merge_go (cfg : ProcessingConfig) : PyStr → List PyStr → List PyStr
  | current, [] => if current.isEmpty then [] else [current]
  | current, l :: ls =>
    let l' := stripL l
    if l'.isEmpty then en_merge_go cfg current ls
    else if en_should_merge cfg current l' then
      if current.isEmpty then en_merge_go cfg l' ls
      else if startsWithL "- ".data current && startsWithL "- ".data l' then
        current :: en_merge_go cfg l' ls
      else if startsWithL "- ".data current && !startsWithL "- ".data l' then
        en_merge_go cfg (current ++ ' ' :: l') ls
      else if !startsWithL "- ".data current && startsWithL "- ".data l' then
        current :: en_merge_go cfg l' ls
      else en_merge_go cfg (current ++ ' ' :: l') ls
    else if current.isEmpty then en_merge_go cfg l' ls
    else current :: en_merge_go cfg l' ls

/-- `EnglishProcessor._smart_merge_lines`. -/
def smart_merge_lines_en (cfg : ProcessingConfig) (lines : List PyStr) : List PyStr :=
  if lines.length ≤ 1 then lines else en_merge_go cfg [] lines

/-- The keyword passes of `_find_best_break_position`: for each word
taken before the limit, clean it (`word.lower().strip(punctuation)`),
and if it is a keyword, return `line.lower().find(clean_word)` when
that (first-occurrence) position lies inside the window. -/
def enWordScan (keywords : List PyStr) (line : PyStr) (ss se : ℕ) :
    List PyStr → Option ℕ
  | [] => none
  | w :: ws =>
    let cw := stripCharsL enPunctChars (pyLower w)
    if keywords.contains cw then
      match pyFind cw (pyLower line) with
      | some wp =>
        if ss ≤ wp ∧ wp ≤ se then some wp else enWordScan keywords line ss se ws
      | none => enWordScan keywords line ss se ws
    else enWordScan keywords line ss se ws

/-- `EnglishProcessor._find_best_break_position`: punctuation window
scan, then conjunction words, then preposition words. -/
def find_best_break_position_en (line : PyStr) (limit : ℕ) : Option ℕ :=
  let ss := limit - 20
  let se := min line.length limit
  match findRevRange
      (fun i => decide (i < line.length)
        && ".,!?;:".data.contains (charAt line i)) ss se with
  | some i => some (i + 1)
  | none =>
    let words := pySplitWs (line.take limit)
    match enWordScan enConjunctions line ss se words with
    | some p => some p
    | none => enWordScan enPrepositions line ss se words

/-- `EnglishProcessor._find_word_boundary_break`. -/
def find_word_boundary_break_en (line : PyStr) (limit : ℕ) : Option ℕ :=
  findRevRange
    (fun i => decide (i < line.length) && (charAt line i == ' '))
    (limit - 15) (min line.length (limit + 5))

/-- `EnglishProcessor._should_break_line`: the v2.0 word-threshold
rule. -/
def should_break_line_en (line : PyStr) (limit : ℕ) : Bool :=
  if line.length ≤ limit then false
  else
    let remaining := stripL (line.drop limit)
    if remaining.isEmpty then false
    else if (pySplitWs remaining).length < 4 then false
    else
      match find_best_break_position_en line limit with
      | some bp =>
        if bp > 0 then
          let sp := stripL (line.drop bp)
          if sp.length < 20 then false
          else if (pySplitWs sp).length < 3 then false
          else true
        else false
      | none => false

/-- `EnglishProcessor._break_line_intelligently` up to its recursive
call: `none` when the line is returned whole, otherwise the
`(first_part, second_part)` pair. -/
def break_step_en (cfg : ProcessingConfig) (line : PyStr) :
    Option (PyStr × PyStr) :=
  let limit := cfg.get_character_limit cfg.language
  if line.length ≤ limit then none
  else if ¬ should_break_line_en line limit then none
  else
    let bp0 := find_best_break_position_en line limit
    let bp1 :=
      match bp0 with
      | some p => some p
      | none => find_word_boundary_break_en line limit
    let bp := bp1.getD limit
    some (rstripL (line.take bp), lstripL (line.drop bp))

/-- `EnglishProcessor._break_line_intelligently`. -/
def break_line_intelligently_en (cfg : ProcessingConfig) (line : PyStr) :
    List PyStr :=
  match break_step_en cfg line with
  | none => [line]
  | some (fp, sp) =>
    if h : ¬ sp.isEmpty ∧ sp.length < line.length then
      fp :: break_line_intelligently_en cfg sp
    else [fp]
termination_by line.length
decreasing_by exact h.2

/-- `EnglishProcessor._merge_short_lines` (on a single remaining line
both paths of the source append `lines[i]` and stop). -/
def merge_short_lines_en (cfg : ProcessingConfig) : List PyStr → List PyStr
  | [] => []
  | [l] => [l]
  | l :: nl :: ls2 =>
    let current := stripL l
    if current.isEmpty then l :: merge_short_lines_en cfg (nl :: ls2)
    else if (stripL nl).isEmpty then l :: merge_short_lines_en cfg (nl :: ls2)
    else
      let next_line := stripL nl
      let curD := startsWithL "- ".data current
      let nextD := startsWithL "- ".data next_line
      let should :=
        (decide (next_line.length < 20) || decide (current.length < 25))
          && !(curD && nextD)
      if should then
        let merged? : Option PyStr :=
          if curD && !nextD then
            some ('-' :: ' ' :: (stripL (current.drop 2)) ++ ' ' :: next_line)
          else if !curD && nextD then none
          else some (current ++ ' ' :: next_line)
        match merged? with
        | some m =>
          if m.length ≤ cfg.get_character_limit cfg.language then
            m :: merge_short_lines_en cfg ls2
          else l :: merge_short_lines_en cfg (nl :: ls2)
        | none => l :: merge_short_lines_en cfg (nl :: ls2)
      else l :: merge_short_lines_en cfg (nl :: ls2)
termination_by ls => ls.length
decreasing_by all_goals (simp only [List.length_cons]; omega)

/-- `EnglishProcessor.process_block`. -/
def process_block_en (cfg : ProcessingConfig) (b : SubtitleBlock) : SubtitleBlock :=
  if b.lines.isEmpty then b
  else
    let p1 := process_dialogue_format b.lines
    let p2 := if p1.length > 1 then smart_merge_lines_en cfg p1 else p1
    let p3 := p2.flatMap fun l =>
      if (stripL l).isEmpty then [] else break_line_intelligently_en cfg l
    let p4 := merge_short_lines_en cfg p3
    { b with lines := p4 }

/-! ## Korean processor (`processors/korean.py`) -/

/-- `KoreanProcessor.punctuation` (same literal as the Chinese one). -/
def koPunctChars : List Char := zhPunctChars

/-- `KoreanProcessor.helper_particles` (a set of strings; its members
of length other than the probed slice length simply never match). -/
def koParticles : List PyStr :=
  ["은".data, "는".data, "이".data, "가".data, "을".data, "를".data,
   "에".data, "에서".data, "로".data, "으로".data, "와".data, "과".data,
   "의".data, "도".data, "만".data, "까지".data, "부터".data, "보다".data,
   "처럼".data, "다".data, "요".data, "죠".data, "네".data, "지".data,
   "니".data, "까".data, "야".data, "아".data, "어".data, "고".data,
   "서".data, "면".data, "려고".data, "하고".data, "때문에".data,
   "가지고".data]

def koSentenceEndChars : List Char := "。！？".data

/-- `KoreanProcessor._should_merge_with_current` (Korean joins with a
space, so the merged length counts one more). -/
def ko_should_merge (cfg : ProcessingConfig) (current next_line : PyStr) : Bool :=
  if current.isEmpty then false
  else if koSentenceEndChars.contains (current.getLastD ' ') then false
  else if startsWithL "- ".data current != startsWithL "- ".data next_line then false
  else
    decide (current.length + 1 + next_line.length
      ≤ cfg.get_character_limit cfg.language)

/-- The accumulator loop of `KoreanProcessor._smart_merge_lines`. -/
def ko_merge_go (cfg : ProcessingConfig) : PyStr → List PyStr → List PyStr
  | current, [] => if current.isEmpty then [] else [current]
  | current, l :: ls =>
    let l' := stripL l
    if l'.isEmpty then ko_merge_go cfg current ls
    else if ko_should_merge cfg current l' then
      if current.isEmpty then ko_merge_go cfg l' ls
      else ko_merge_go cfg (current ++ ' ' :: l') ls
    else if current.isEmpty then ko_merge_go cfg l' ls
    else current :: ko_merge_go cfg l' ls

/-- `KoreanProcessor._smart_merge_lines`. -/
def smart_merge_lines_ko (cfg : ProcessingConfig) (lines : List PyStr) : List PyStr :=
  if lines.length ≤ 1 then lines else ko_merge_go cfg [] lines

/-- `KoreanProcessor._find_best_break_position`: spaces, two-character
particles, single-character particles, punctuation. -/
def find_best_break_position_ko (line : PyStr) (limit : ℕ) : Option ℕ :=
  let ss := limit - 8
  let se := min line.length (limit + 3)
  match findRevRange
      (fun i => decide (i < line.length) && (charAt line i == ' ')
        && decide (i ≤ limit)) ss se with
  | some i => some i
  | none =>
    match findRevRange
        (fun i => decide (i + 2 ≤ line.length)
          && koParticles.contains ((line.drop i).take 2)
          && decide (i + 2 ≤ limit)) ss (se - 1) with
    | some i => some (i + 2)
    | none =>
      match findRevRange
          (fun i => decide (i < line.length)
            && koParticles.contains [charAt line i]
            && decide (i + 1 ≤ limit)) ss se with
      | some i => some (i + 1)
      | none =>
        match findRevRange
            (fun i => decide (i < line.length)
              && koPunctChars.contains (charAt line i)
              && decide (i + 1 ≤ limit)) ss se with
        | some i => some (i + 1)
        | none => none

/-- `KoreanProcessor._break_line_intelligently` up to its recursive
call (`< 3` threshold, minimum 4-character tail). -/
def break_step_ko (cfg : ProcessingConfig) (line : PyStr) :
    Option (PyStr × PyStr) :=
  let limit := cfg.get_character_limit cfg.language
  if line.length ≤ limit then none
  else if line.length - limit < 3 then none
  else
    let bp := (find_best_break_position_ko line limit).getD limit
    let fp := rstripL (line.take bp)
    let sp := lstripL (line.drop bp)
    if sp.length < 4 then none else some (fp, sp)

/-- `KoreanProcessor._break_line_intelligently`. -/
def break_line_intelligently_ko (cfg : ProcessingConfig) (line : PyStr) :
    List PyStr :=
  match break_step_ko cfg line with
  | none => [line]
  | some (fp, sp) =>
    if h : ¬ sp.isEmpty ∧ sp.length < line.length then
      fp :: break_line_intelligently_ko cfg sp
    else [fp]
termination_by line.length
decreasing_by exact h.2

/-- `KoreanProcessor._is_line_continuation.continuation_endings`. -/
def koContinuationEndings : List PyStr :=
  ["고".data, "서".data, "면".data, "며".data, "는데".data, "지만".data,
   "하고".data, "가지고".data, "때문에".data, "하면서".data, "다가".data,
   "으면서".data, "으니까".data, "니까".data, "하여".data, "해서".data,
   "에서".data, "으로".data, "로".data, "와".data, "과".data]

/-- `KoreanProcessor._is_line_continuation`. -/
def is_line_continuation_ko (line : PyStr) : Bool :=
  let l := stripL line
  if l.isEmpty then false
  else if koContinuationEndings.any (fun e => endsWithL e l) then true
  else decide (l.length < 6)

/-- `KoreanProcessor._add_missing_punctuation`: append an ASCII `"."`
to the stripped last line when it is a complete sentence. -/
def add_missing_punctuation_ko (lines : List PyStr) : List PyStr :=
  if lines.isEmpty then lines
  else
    let last_line := stripL (lines.getLastD [])
    if !last_line.isEmpty
        && !(koPunctChars.contains (last_line.getLastD ' '))
        && !(endsWithL "...".data last_line)
        && !(startsWithL "♪".data last_line)
        && !(["고".data, "서".data, "면".data, "며".data, "는데".data,
              "지만".data, "하고".data].any (fun e => endsWithL e last_line))
        && !(is_line_continuation_ko last_line) then
      lines.dropLast ++ [last_line ++ ".".data]
    else lines

/-- `KoreanProcessor.process_block`. -/
def process_block_ko (cfg : ProcessingConfig) (b : SubtitleBlock) : SubtitleBlock :=
  if b.lines.isEmpty then b
  else
    let p1 := process_dialogue_format b.lines
    let p2 := if p1.length > 1 then smart_merge_lines_ko cfg p1 else p1
    let p3 := p2.flatMap fun l =>
      if (stripL l).isEmpty then [] else break_line_intelligently_ko cfg l
    let p4 := if cfg.noPunctFix then p3 else add_missing_punctuation_ko p3
    { b with lines := p4 }

/-! ## Orchestrator (`core/processor.py`) -/

/-- `SRTProcessor.processors` as a dispatch: the engine for a language
tag, when one is registered. -/
def runProcessor : Lang → ProcessingConfig → SubtitleBlock → Option SubtitleBlock
  | .zh, cfg, b => some (process_block_zh cfg b)
  | .en, cfg, b => some (process_block_en cfg b)
  | .ko, cfg, b => some (process_block_ko cfg b)
  | _, _, _ => none

/-- `SRTProcessor._is_bilingual_block`: more than one distinct
per-line language among the non-blank lines (of a block with at least
two lines). -/
def is_bilingual_block (b : SubtitleBlock) : Bool :=
  if b.lines.length < 2 then false
  else
    (((b.lines.filter (fun l => !(stripL l).isEmpty)).map
      detect_line_language).eraseDups).length > 1

/-- The inner `j` loop of `_process_bilingual_block`: collect further
consecutive lines of the same language, silently skipping blank lines
(the code advances `j` past them without keeping them). -/
def takeLangGroup (lang : Lang) : List PyStr → List PyStr × List PyStr
  | [] => ([], [])
  | x :: xs =>
    if (stripL x).isEmpty then takeLangGroup lang xs
    else if detect_line_language x = lang then
      let p := takeLangGroup lang xs
      (x :: p.1, p.2)
    else ([], x :: xs)

/-- The outer `i` loop of `_process_bilingual_block`: blank lines are
kept as-is; a non-blank line starts a same-language run, which is
processed as a temporary block under a config whose language field is
replaced (`dataclasses.replace`), and the resulting lines are
concatenated in order. -/
def bilingualGo (cfg : ProcessingConfig) (b : SubtitleBlock) :
    List PyStr → List PyStr
  | [] => []
  | l :: rest =>
    if (stripL l).isEmpty then l :: bilingualGo cfg b rest
    else
      let lang := detect_line_language l
      let grp := takeLangGroup lang rest
      let consecutive := l :: grp.1
      let temp : SubtitleBlock :=
        ⟨b.index, b.timeCode, consecutive, some lang, b.isSdh⟩
      match runProcessor lang { cfg with language := lang } temp with
      | some pb => pb.lines ++ bilingualGo cfg b grp.2
      | none => consecutive ++ bilingualGo cfg b grp.2
termination_by ls => ls.length
decreasing_by
  all_goals simp only [List.length_cons]
  · omega
  all_goals {
    have hlen : ∀ xs : List PyStr,
        (takeLangGroup lang xs).2.length ≤ xs.length := by
      intro xs
      induction xs with
      | nil => simp [takeLangGroup]
      | cons x xs ih =>
        simp only [takeLangGroup]
        split
        · exact le_trans ih (by simp)
        · split
          · simpa using le_trans ih (by simp)
          · simp
    exact Nat.lt_succ_of_le (hlen _) }

/-- `SRTProcessor._process_bilingual_block`. -/
def process_bilingual_block (cfg : ProcessingConfig) (b : SubtitleBlock) :
    SubtitleBlock :=
  { b with lines := bilingualGo cfg b b.lines }

/-- `SRTProcessor._process_document`. -/
def process_document (cfg : ProcessingConfig) (doc : SRTDocument) : SRTDocument :=
  let pbs := doc.blocks.map fun b =>
    if is_bilingual_block b then process_bilingual_block cfg b
    else (runProcessor (resolveBlockLang doc.detectedLang b) cfg b).getD b
  { doc with blocks := pbs }

/-- `SRTProcessor.process_file`, minus the file I/O at both ends: the
parse result comes in as `doc`, and the returned pair is the final
state of `self.config` (which `process_file` assigns to in auto mode)
together with the processed document. -/
def process_file_state (cfg : ProcessingConfig) (doc : SRTDocument) :
    ProcessingConfig × SRTDocument :=
  let cfg1 :=
    if cfg.language = .auto then { cfg with language := detect_language doc }
    else cfg
  let doc1 := { doc with detectedLang := some cfg1.language }
  let doc2 :=
    { doc1 with
      blocks := doc1.blocks.map fun b =>
        { b with language := some (detect_block_language b) } }
  let doc3 :=
    if cfg1.removeSdh then remove_sdh_blocks_and_clean_content doc2 else doc2
  (cfg1, process_document cfg1 doc3)

deriving instance DecidableEq for Except

/-- A concrete Chinese-target configuration used in examples. -/
def exampleCfgZh : ProcessingConfig := ⟨.zh, .adult, false, false, false, true⟩

def exampleCfgEn : ProcessingConfig := ⟨.en, .adult, false, false, false, true⟩

def exampleCfgKo : ProcessingConfig := ⟨.ko, .adult, false, false, false, true⟩

/-- A non-empty document whose only block holds a single whitespace
line. -/
def exampleWsDoc : SRTDocument :=
  ⟨[⟨1, ⟨0, 1000⟩, [" ".data], none, false⟩], none, none, "utf-8".data⟩

def exampleEmptyDoc : SRTDocument := ⟨[], none, none, "utf-8".data⟩

def exampleJaBlock : SubtitleBlock :=
  ⟨1, ⟨0, 1000⟩, ["ああああああああああああああああああああ".data], some .ja, false⟩

def exampleEnBlock : SubtitleBlock := ⟨1, ⟨0, 1000⟩, ["hello".data], none, false⟩

def exampleCfgJa : ProcessingConfig := ⟨.ja, .adult, false, false, false, true⟩

def exampleJaSpeedBlock : SubtitleBlock :=
  ⟨1, ⟨0, 1000⟩, ["あいうえお".data], some .ja, false⟩

def exampleBoundaryBlock : SubtitleBlock :=
  ⟨1, ⟨0, 2000⟩, [List.replicate 40 'a'], none, false⟩

/-- A document with one `♪♪`-only block followed by one dialogue
block. -/
def exampleSdhDoc : SRTDocument :=
  ⟨[⟨1, ⟨0, 1000⟩, ["♪♪".data], none, false⟩,
    ⟨2, ⟨1500, 2800⟩, ["hello".data], none, false⟩], none, none, "utf-8".data⟩

def exampleAutoCfg : ProcessingConfig := ⟨.auto, .adult, false, false, false, true⟩

/-- Two consecutive text lines that the parser's stop lookahead would
misread as the start of a new block: a line stripping to a bare
integer immediately followed by a line matching the time pattern. -/
def noStopPair (a b : PyStr) : Prop :=
  ¬ (pyIsDigitStr (stripL a) = true ∧ timePatternMatch (stripL b) = true)

instance (a b : PyStr) : Decidable (noStopPair a b) :=
  inferInstanceAs (Decidable
    (¬ (pyIsDigitStr (stripL a) = true ∧ timePatternMatch (stripL b) = true)))

/-- Structural decision procedure for chains of `noStopPair`, so that
concrete wire-safety checks evaluate in the kernel. -/
def decidableChainNoStop : (l : List PyStr) → Decidable (List.Chain' noStopPair l)
  | [] => isTrue List.chain'_nil
  | [a] => isTrue (List.chain'_singleton a)
  | a :: b :: r =>
    match decidableChainNoStop (b :: r) with
    | isTrue h =>
      if hp : noStopPair a b then isTrue (List.chain'_cons.mpr ⟨hp, h⟩)
      else isFalse (fun hc => hp (List.chain'_cons.mp hc).1)
    | isFalse h => isFalse (fun hc => h (List.chain'_cons.mp hc).2)

instance (l : List PyStr) : Decidable (List.Chain' noStopPair l) :=
  decidableChainNoStop l

/-- The conditions under which one block survives the wire round
trip unchanged: non-empty text, every line `rstrip`-fixed and
newline-free, a non-blank final line, no interior line pair that the
parser's lookahead would take for a new block header, millisecond
totals under 100 hours (the serializer's two-digit hour field), and
no parse-time metadata set. -/
def WireSafeBlock (b : SubtitleBlock) : Prop :=
  b.lines ≠ []
    ∧ (∀ l ∈ b.lines, rstripL l = l)
    ∧ (∀ l ∈ b.lines, ∀ c ∈ l, c ≠ '\n')
    ∧ b.lines.getLast? ≠ some []
    ∧ List.Chain' noStopPair b.lines
    ∧ b.timeCode.startMs < 360000000
    ∧ b.timeCode.endMs < 360000000
    ∧ b.language = none
    ∧ b.isSdh = false

instance (b : SubtitleBlock) : Decidable (WireSafeBlock b) :=
  inferInstanceAs (Decidable
    (b.lines ≠ []
      ∧ (∀ l ∈ b.lines, rstripL l = l)
      ∧ (∀ l ∈ b.lines, ∀ c ∈ l, c ≠ '\n')
      ∧ b.lines.getLast? ≠ some []
      ∧ List.Chain' noStopPair b.lines
      ∧ b.timeCode.startMs < 360000000
      ∧ b.timeCode.endMs < 360000000
      ∧ b.language = none
      ∧ b.isSdh = false))

/-- The serialized line list of a document's blocks: all wire lines
except the final empty separator (which the outer `strip()` of
`_parse_content` removes together with the trailing newline). -/
def wireTail (bs : List SubtitleBlock) : List PyStr :=
  (bs.flatMap blockWireLines).dropLast

/-- A document whose single block carries a trailing space on its one
text line: serialization keeps the space, but the parser `rstrip`s
every collected text line. -/
def exampleTrailingSpaceDoc : SRTDocument :=
  ⟨[⟨1, ⟨0, 1000⟩, ["a ".data], none, false⟩], none, none, "utf-8".data⟩

/-- A two-block document satisfying every wire-safety condition. -/
def exampleRoundTripDoc : SRTDocument :=
  ⟨[⟨1, ⟨0, 1500⟩, ["hello".data, "world".data], none, false⟩,
    ⟨2, ⟨2000, 3000⟩, ["- hi".data], none, false⟩], none, none, "utf-8".data⟩

/-! ## Basic lemmas about the string primitives -/

theorem takeLangGroup_rest_length (lang : Lang) :
    ∀ xs : List PyStr, (takeLangGroup lang xs).2.length ≤ xs.length := by
  intro xs
  induction xs with
  | nil => simp [takeLangGroup]
  | cons x xs ih =>
    simp only [takeLangGroup]
    split
    · exact le_trans ih (by simp)
    · split
      · simpa using le_trans ih (by simp)
      · simp

theorem lstripL_length_le (s : PyStr) : (lstripL s).length ≤ s.length := by
  induction s with
  | nil => simp [lstripL]
  | cons c cs ih =>
    simp only [lstripL]
    split
    · exact le_trans ih (by simp)
    · simp

theorem lstripL_cons_of_ws {c : Char} (h : pyIsWs c = true) (s : PyStr) :
    lstripL (c :: s) = lstripL s := by
  simp [lstripL, h]

theorem lstripL_cons_of_not_ws {c : Char} (h : pyIsWs c = false) (s : PyStr) :
    lstripL (c :: s) = c :: s := by
  simp [lstripL, h]

theorem lstripL_eq_dropWhile (s : PyStr) : lstripL s = s.dropWhile pyIsWs := by
  induction s with
  | nil => rfl
  | cons c cs ih =>
    simp only [lstripL, List.dropWhile]
    split
    · next h => rw [ih]; simp_all
    · next h => simp_all

theorem lstripL_eq_nil_iff (s : PyStr) :
    lstripL s = [] ↔ ∀ c ∈ s, pyIsWs c = true := by
  induction s with
  | nil => simp [lstripL]
  | cons c cs ih =>
    simp only [lstripL]
    by_cases h : pyIsWs c = true
    · simp [h, ih]
    · simp [h]

theorem rstripL_eq_nil_iff (s : PyStr) :
    rstripL s = [] ↔ ∀ c ∈ s, pyIsWs c = true := by
  unfold rstripL
  rw [List.reverse_eq_nil_iff, lstripL_eq_nil_iff]
  simp

theorem stripL_eq_nil_iff (s : PyStr) :
    stripL s = [] ↔ ∀ c ∈ s, pyIsWs c = true := by
  unfold stripL
  rw [rstripL_eq_nil_iff]
  constructor
  · intro h c hc
    rw [lstripL_eq_dropWhile] at h
    have hc' : c ∈ s.takeWhile pyIsWs ++ s.dropWhile pyIsWs := by
      rw [List.takeWhile_append_dropWhile]; exact hc
    rcases List.mem_append.mp hc' with h1 | h2
    · exact List.mem_takeWhile_imp h1
    · exact h c h2
  · intro h c hc
    rw [lstripL_eq_dropWhile] at hc
    exact h c (List.dropWhile_subset pyIsWs hc)

theorem rstripL_length_le (s : PyStr) : (rstripL s).length ≤ s.length := by
  unfold rstripL
  calc (lstripL s.reverse).reverse.length = (lstripL s.reverse).length := by simp
  _ ≤ s.reverse.length := lstripL_length_le _
  _ = s.length := by simp

theorem lstripL_length_lt {c : Char} (h : pyIsWs c = true) (s : PyStr) :
    (lstripL (c :: s)).length < (c :: s).length := by
  rw [lstripL_cons_of_ws h]
  exact Nat.lt_succ_of_le (lstripL_length_le s)

theorem stripL_of_no_ws {s : PyStr} (h : ∀ c ∈ s, pyIsWs c = false) :
    stripL s = s := by
  have hl : ∀ t : PyStr, (∀ c ∈ t, pyIsWs c = false) → lstripL t = t := by
    intro t ht
    cases t with
    | nil => rfl
    | cons c cs => exact lstripL_cons_of_not_ws (ht c (by simp)) cs
  unfold stripL rstripL
  rw [hl s h, hl s.reverse (by intro c hc; exact h c (List.mem_reverse.mp hc)),
    List.reverse_reverse]

theorem stripL_of_ends {s : PyStr} (hh : ∀ h ∈ s.head?, pyIsWs h = false)
    (hl : ∀ t ∈ s.getLast?, pyIsWs t = false) : stripL s = s := by
  unfold stripL rstripL
  have h1 : lstripL s = s := by
    cases s with
    | nil => rfl
    | cons c cs => exact lstripL_cons_of_not_ws (hh c rfl) cs
  rw [h1]
  have h2 : lstripL s.reverse = s.reverse := by
    cases hsr : s.reverse with
    | nil => rfl
    | cons c cs =>
      refine lstripL_cons_of_not_ws ?_ cs
      apply hl
      have : s.getLast? = s.reverse.head? := (List.head?_reverse s).symm
      rw [this, hsr]
      rfl
  rw [h2, List.reverse_reverse]

/-! ## C10: Chinese smart merge preserves text -/

theorem zh_merge_go_flatten (cfg : ProcessingConfig) :
    ∀ (ls : List PyStr) (cur : PyStr),
      (zh_merge_go cfg cur ls).flatten
        = cur ++ ((ls.map stripL).filter (fun l => !l.isEmpty)).flatten := by
  intro ls
  induction ls with
  | nil =>
    intro cur
    by_cases h : cur.isEmpty
    · simp_all [zh_merge_go, List.isEmpty_iff.mp h]
    · simp_all [zh_merge_go]
  | cons l ls ih =>
    intro cur
    simp only [zh_merge_go, List.map_cons, List.filter_cons]
    by_cases h1 : (stripL l).isEmpty
    · simp [h1, ih]
    · by_cases h2 : zh_should_merge cfg cur (stripL l)
      · by_cases h3 : cur.isEmpty
        · simp [h1, h2, h3, ih, List.isEmpty_iff.mp h3]
        · simp [h1, h2, h3, ih]
      · by_cases h3 : cur.isEmpty
        · simp [h1, h2, h3, ih, List.isEmpty_iff.mp h3]
        · simp [h1, h2, h3, ih]

/-- C10 (amended): whenever `_smart_merge_lines` actually runs its
merge loop — that is, on two or more input lines — the concatenation
of the output equals the concatenation of the stripped non-empty
input lines; on zero or one lines the source returns the input
unchanged (unstripped), which is the single point where the original
claim fails. -/
theorem zh_smart_merge_preserves_text (cfg : ProcessingConfig)
    (lines : List PyStr) (h : 2 ≤ lines.length) :
    (smart_merge_lines_zh cfg lines).flatten
      = ((lines.map stripL).filter (fun l => !l.isEmpty)).flatten := by
  unfold smart_merge_lines_zh
  rw [if_neg (by omega)]
  simpa using zh_merge_go_flatten cfg lines []

/-- C10 (counterexample): on the single-line input `[" a "]` the
merge returns the line unstripped, so the output concatenation
differs from the concatenation of the stripped non-empty inputs. -/
theorem zh_smart_merge_single_line_not_stripped :
    ¬ ((smart_merge_lines_zh exampleCfgZh [" a ".data]).flatten
      = (([" a ".data].map stripL).filter (fun l => !l.isEmpty)).flatten) := by
  decide

/-- C10 (witness): the amended theorem applied to a concrete two-line
block. -/
theorem zh_smart_merge_preserves_text_witness :
    2 ≤ (["你好，".data, "世界".data] : List PyStr).length ∧
      (smart_merge_lines_zh exampleCfgZh ["你好，".data, "世界".data]).flatten
        = ((["你好，".data, "世界".data].map stripL).filter
            (fun l => !l.isEmpty)).flatten :=
  ⟨by decide, zh_smart_merge_preserves_text exampleCfgZh _ (by decide)⟩

/-! ## C7: line breaking recursion strictly shrinks its input -/

theorem findRevAux_sound (p : ℕ → Bool) (lo : ℕ) :
    ∀ k i, findRevAux p lo k = some i → p i = true ∧ lo ≤ i ∧ i < lo + k := by
  intro k
  induction k with
  | zero => intro i h; simp [findRevAux] at h
  | succ k ih =>
    intro i h
    simp only [findRevAux] at h
    split at h
    · cases h
      next hp => exact ⟨hp, by omega, by omega⟩
    · have := ih i h
      exact ⟨this.1, this.2.1, by omega⟩

theorem findRevRange_sound {p : ℕ → Bool} {lo hi i : ℕ}
    (h : findRevRange p lo hi = some i) : p i = true ∧ lo ≤ i ∧ i < hi := by
  have := findRevAux_sound p lo (hi - lo) i h
  exact ⟨this.1, this.2.1, by omega⟩

theorem get_character_limit_pos (cfg : ProcessingConfig) (l : Lang) :
    0 < cfg.get_character_limit l := by
  cases l <;> simp only [ProcessingConfig.get_character_limit] <;>
    (try split) <;> omega

theorem lstripL_drop_length_lt {line : PyStr} {bp : ℕ}
    (hlen : 0 < line.length) (hbp : 0 < bp) :
    (lstripL (line.drop bp)).length < line.length :=
  calc (lstripL (line.drop bp)).length ≤ (line.drop bp).length :=
        lstripL_length_le _
  _ = line.length - bp := by simp
  _ < line.length := Nat.sub_lt hlen hbp

theorem lstripL_drop_space_length_lt {line : PyStr} {i : ℕ}
    (hi : i < line.length) (hsp : charAt line i = ' ') :
    (lstripL (line.drop i)).length < line.length := by
  have hdrop : line.drop i = ' ' :: line.drop (i + 1) := by
    rw [List.drop_eq_getElem_cons hi]
    congr 1
    rw [← hsp]
    unfold charAt
    exact (List.getD_eq_getElem line (Char.ofNat 0) hi).symm
  rw [hdrop, lstripL_cons_of_ws (by decide)]
  calc (lstripL (line.drop (i + 1))).length ≤ (line.drop (i + 1)).length :=
        lstripL_length_le _
  _ = line.length - (i + 1) := by simp
  _ < line.length := by omega

theorem zh_find_cases {line : PyStr} {limit bp : ℕ}
    (h : find_best_break_position_zh line limit = some bp) :
    1 ≤ bp ∨ (bp < line.length ∧ charAt line bp = ' ') := by
  unfold find_best_break_position_zh at h
  simp only [] at h
  split at h
  · next heq => cases h; left; omega
  · split at h
    · next heq => cases h; left; omega
    · have hs := findRevRange_sound h
      right
      have h1 := hs.1
      simp only [Bool.and_eq_true, decide_eq_true_eq, beq_iff_eq] at h1
      exact ⟨h1.1.1, h1.1.2⟩

theorem ko_find_cases {line : PyStr} {limit bp : ℕ}
    (h : find_best_break_position_ko line limit = some bp) :
    1 ≤ bp ∨ (bp < line.length ∧ charAt line bp = ' ') := by
  unfold find_best_break_position_ko at h
  simp only [] at h
  split at h
  · next heq =>
    cases h
    have h1 := (findRevRange_sound heq).1
    simp only [Bool.and_eq_true, decide_eq_true_eq, beq_iff_eq] at h1
    right
    exact ⟨h1.1.1, h1.1.2⟩
  · split at h
    · next heq => cases h; left; omega
    · split at h
      · next heq => cases h; left; omega
      · split at h
        · next heq => cases h; left; omega
        · cases h

theorem en_should_break_gives_pos {line : PyStr} {limit : ℕ}
    (h : should_break_line_en line limit = true) :
    ∃ bp, find_best_break_position_en line limit = some bp ∧ 0 < bp := by
  unfold should_break_line_en at h
  simp only [] at h
  split at h
  · cases h
  · split at h
    · cases h
    · split at h
      · cases h
      · split at h
        · next bp heq =>
          split at h
          · exact ⟨bp, heq, by omega⟩
          · cases h
        · cases h

theorem break_step_zh_shrinks {cfg : ProcessingConfig} {line fp sp : PyStr}
    (h : break_step_zh cfg line = some (fp, sp)) : sp.length < line.length := by
  unfold break_step_zh at h
  simp only [] at h
  split at h
  · cases h
  · split at h
    · cases h
    · next hgt _ =>
      split at h
      · cases h
      · cases h
        have hlen : 0 < line.length := by omega
        rcases hfind : find_best_break_position_zh line
            (cfg.get_character_limit cfg.language) with _ | p
        · simp only [Option.getD_none]
          exact lstripL_drop_length_lt hlen (get_character_limit_pos cfg _)
        · simp only [Option.getD_some]
          rcases zh_find_cases hfind with hp | ⟨hp1, hp2⟩
          · exact lstripL_drop_length_lt hlen hp
          · exact lstripL_drop_space_length_lt hp1 hp2

theorem break_step_ko_shrinks {cfg : ProcessingConfig} {line fp sp : PyStr}
    (h : break_step_ko cfg line = some (fp, sp)) : sp.length < line.length := by
  unfold break_step_ko at h
  simp only [] at h
  split at h
  · cases h
  · split at h
    · cases h
    · next hgt _ =>
      split at h
      · cases h
      · cases h
        have hlen : 0 < line.length := by omega
        rcases hfind : find_best_break_position_ko line
            (cfg.get_character_limit cfg.language) with _ | p
        · simp only [Option.getD_none]
          exact lstripL_drop_length_lt hlen (get_character_limit_pos cfg _)
        · simp only [Option.getD_some]
          rcases ko_find_cases hfind with hp | ⟨hp1, hp2⟩
          · exact lstripL_drop_length_lt hlen hp
          · exact lstripL_drop_space_length_lt hp1 hp2

theorem break_step_en_shrinks {cfg : ProcessingConfig} {line fp sp : PyStr}
    (h : break_step_en cfg line = some (fp, sp)) : sp.length < line.length := by
  unfold break_step_en at h
  simp only [] at h
  split at h
  · cases h
  · next hle =>
    split at h
    · cases h
    · next hsb =>
      rw [Bool.not_eq_true, Bool.not_eq_false] at hsb
      obtain ⟨bp, hbp, hpos⟩ := en_should_break_gives_pos hsb
      rw [hbp] at h
      cases h
      exact lstripL_drop_length_lt (by omega) hpos

/-- C7: for every input line, every configuration and each of the
three language engines, whenever `_break_line_intelligently` reaches
its recursive call, the `second_part` it recurses on is strictly
shorter than the input line — so the recursion terminates and the
source's `len(second_part) < len(line)` safety guard never fires. -/
theorem break_line_recursive_call_shrinks :
    (∀ (cfg : ProcessingConfig) (line fp sp : PyStr),
        break_step_zh cfg line = some (fp, sp) → sp.length < line.length)
  ∧ (∀ (cfg : ProcessingConfig) (line fp sp : PyStr),
        break_step_en cfg line = some (fp, sp) → sp.length < line.length)
  ∧ (∀ (cfg : ProcessingConfig) (line fp sp : PyStr),
        break_step_ko cfg line = some (fp, sp) → sp.length < line.length) :=
  ⟨fun _ _ _ _ h => break_step_zh_shrinks h,
   fun _ _ _ _ h => break_step_en_shrinks h,
   fun _ _ _ _ h => break_step_ko_shrinks h⟩

/-- C7 (witness): concrete over-long lines on which each engine
actually recurses, with the strictly shorter tails. -/
theorem break_line_recursive_call_shrinks_witness :
    ((List.replicate 9 '哈' : PyStr).length < (List.replicate 25 '哈' : PyStr).length
      ∧ break_step_zh exampleCfgZh (List.replicate 25 '哈')
          = some (List.replicate 16 '哈', List.replicate 9 '哈'))
  ∧ (("it is very long indeed my friend".data : PyStr).length
        < ("aaaaaaaaaaaaaaaaaaaaaaaaaaaaaaaaaaaaaaaa. it is very long indeed my friend".data : PyStr).length
      ∧ break_step_en exampleCfgEn
          "aaaaaaaaaaaaaaaaaaaaaaaaaaaaaaaaaaaaaaaa. it is very long indeed my friend".data
          = some ("aaaaaaaaaaaaaaaaaaaaaaaaaaaaaaaaaaaaaaaa.".data,
                  "it is very long indeed my friend".data))
  ∧ (("가가가가".data : PyStr).length < ("가가가가가가가가가가가가가가가 가가가가".data : PyStr).length
      ∧ break_step_ko exampleCfgKo "가가가가가가가가가가가가가가가 가가가가".data
          = some ("가가가가가가가가가가가가가가가".data, "가가가가".data)) :=
  ⟨⟨break_line_recursive_call_shrinks.1 exampleCfgZh (List.replicate 25 '哈')
      (List.replicate 16 '哈') (List.replicate 9 '哈') (by decide), by decide⟩,
   ⟨break_line_recursive_call_shrinks.2.1 exampleCfgEn
      "aaaaaaaaaaaaaaaaaaaaaaaaaaaaaaaaaaaaaaaa. it is very long indeed my friend".data
      "aaaaaaaaaaaaaaaaaaaaaaaaaaaaaaaaaaaaaaaa.".data
      "it is very long indeed my friend".data (by decide), by decide⟩,
   ⟨break_line_recursive_call_shrinks.2.2 exampleCfgKo
      "가가가가가가가가가가가가가가가 가가가가".data
      "가가가가가가가가가가가가가가가".data "가가가가".data (by decide), by decide⟩⟩

/-! ## C5: language defaults on empty and whitespace-only input -/

theorem pyJoin_all_ws {sep : PyStr} (hsep : ∀ c ∈ sep, pyIsWs c = true) :
    ∀ (xs : List PyStr), (∀ t ∈ xs, ∀ c ∈ t, pyIsWs c = true) →
      ∀ c ∈ pyJoin sep xs, pyIsWs c = true := by
  intro xs
  induction xs with
  | nil => intro _ c hc; simp [pyJoin] at hc
  | cons x xs ih =>
    intro hall c hc
    cases xs with
    | nil => exact hall x (by simp) c hc
    | cons y ys =>
      simp only [pyJoin, List.append_assoc, List.mem_append] at hc
      rcases hc with h | h | h
      · exact hall x (by simp) c h
      · exact hsep c h
      · exact ih (fun t ht => hall t (by simp [ht])) c h

theorem pyIsWs_char_classes {c : Char} (h : pyIsWs c = true) :
    isHanChar c = false ∧ isHangulChar c = false ∧ isHiraganaChar c = false
      ∧ isKatakanaChar c = false ∧ isAsciiLetter c = false
      ∧ chinesePunctChars.contains c = false
      ∧ japanesePunctChars.contains c = false := by
  have hc : c ∈ pyWsChars := by simpa [pyIsWs, List.contains_iff_exists_mem_beq] using h
  fin_cases hc <;> decide

theorem calc_scores_zero_counts (n : ℕ) (l : Lang) :
    calculate_language_scores ⟨0, 0, 0, 0, 0, 0, 0, 0, n⟩ l = 0 := by
  cases l <;> (simp only [calculate_language_scores, rawScores]; try split) <;>
    norm_num

/-- C5 (amended): empty or whitespace-only input defaults to English
at the line and block granularities, and an empty document (no
blocks) defaults to English; but a NON-empty document whose blocks
contain only whitespace text is classified Chinese — every language
scores zero over such a document and `max` resolves the tie to the
first language in the candidate order Chinese, English, Korean,
Japanese. -/
theorem empty_input_language_defaults :
    (∀ line : PyStr, stripL line = [] → detect_line_language line = Lang.en)
  ∧ (∀ b : SubtitleBlock, stripL b.text = [] → detect_block_language b = Lang.en)
  ∧ (∀ doc : SRTDocument, doc.blocks = [] → detect_language doc = Lang.en)
  ∧ (∀ doc : SRTDocument, doc.blocks ≠ [] →
      (∀ b ∈ doc.blocks, stripL b.text = []) → detect_language doc = Lang.zh) := by
  refine ⟨?_, ?_, ?_, ?_⟩
  · intro line h; simp [detect_line_language, h]
  · intro b h; simp [detect_block_language, h]
  · intro doc h; simp [detect_language, h]
  · intro doc hne hws
    unfold detect_language
    rw [if_neg hne]
    have hwsAll : ∀ c ∈ pyJoin [' '] (doc.blocks.map SubtitleBlock.text),
        pyIsWs c = true := by
      refine pyJoin_all_ws (by decide) _ ?_
      intro t ht c hc
      rcases List.mem_map.mp ht with ⟨b, hb, rfl⟩
      exact (stripL_eq_nil_iff _).mp (hws b hb) c hc
    have hfil : ∀ p : Char → Bool, (∀ c, pyIsWs c = true → p c = false) →
        (pyJoin [' '] (doc.blocks.map SubtitleBlock.text)).filter p = [] := by
      intro p hp
      rw [List.filter_eq_nil_iff]
      intro a ha
      simp [hp a (hwsAll a ha)]
    have hCC : analyze_character_distribution doc.blocks =
        ⟨0, 0, 0, 0, 0, 0, 0, 0,
          ((pyJoin [' '] (doc.blocks.map SubtitleBlock.text)).filter
            (fun c => c ≠ ' ')).length⟩ := by
      unfold analyze_character_distribution count_characters
      rw [hfil isHanChar (fun c h => (pyIsWs_char_classes h).1),
        hfil isHangulChar (fun c h => (pyIsWs_char_classes h).2.1),
        hfil isHiraganaChar (fun c h => (pyIsWs_char_classes h).2.2.1),
        hfil isKatakanaChar (fun c h => (pyIsWs_char_classes h).2.2.2.1),
        hfil isAsciiLetter (fun c h => (pyIsWs_char_classes h).2.2.2.2.1),
        hfil (fun c => chinesePunctChars.contains c)
          (fun c h => (pyIsWs_char_classes h).2.2.2.2.2.1),
        hfil (fun c => japanesePunctChars.contains c)
          (fun c h => (pyIsWs_char_classes h).2.2.2.2.2.2)]
      rfl
    rw [hCC]
    unfold argmaxLang
    simp [calc_scores_zero_counts]

/-- C5 (counterexample): a non-empty, whitespace-only document is
classified Chinese at the whole-document granularity, not English. -/
theorem detect_language_ws_doc_not_english :
    exampleWsDoc.blocks ≠ []
      ∧ (∀ b ∈ exampleWsDoc.blocks, stripL b.text = [])
      ∧ detect_language exampleWsDoc = Lang.zh
      ∧ detect_language exampleWsDoc ≠ Lang.en := by
  refine ⟨by decide, by decide, by with_unfolding_all decide,
    by with_unfolding_all decide⟩

/-- C5 (witness): the amended theorem applied at each granularity. -/
theorem empty_input_language_defaults_witness :
    detect_line_language " ".data = Lang.en
      ∧ detect_block_language ⟨1, ⟨0, 1000⟩, [" ".data], none, false⟩ = Lang.en
      ∧ detect_language exampleEmptyDoc = Lang.en
      ∧ detect_language exampleWsDoc = Lang.zh :=
  ⟨empty_input_language_defaults.1 _ (by decide),
   empty_input_language_defaults.2.1 _ (by decide),
   empty_input_language_defaults.2.2.1 _ (by decide),
   empty_input_language_defaults.2.2.2 _ (by decide) (by decide)⟩

/-! ## C1 and C6: validator guarantees -/

/-- C1 (amended): if a block's resolved language has a registered
processor and the validator records no warning at all for the block,
then every non-empty line obeys the character limit of its per-line
detected language.  (A block whose resolved language is Japanese — or
any unregistered language — is skipped wholesale and counts as
compliant no matter how long its lines are; that gap is the
counterexample to the original claim.) -/
theorem compliant_block_within_char_limits (cfg : ProcessingConfig)
    (docLang : Option Lang) (b : SubtitleBlock)
    (hp : processorExists (resolveBlockLang docLang b) = true)
    (hw : blockWarnings cfg docLang b = []) :
    ∀ line ∈ b.lines, stripL line ≠ [] →
      line.length ≤ cfg.get_character_limit (detect_line_language line) := by
  intro line hline hstrip
  unfold blockWarnings at hw
  rw [hp] at hw
  simp only [if_true] at hw
  rcases List.append_eq_nil.mp hw with ⟨h1, _⟩
  have h2 := List.filterMap_eq_nil_iff.mp h1 line hline
  split_ifs at h2 with hc1 hc2
  · exact absurd hc1 hstrip
  · omega

/-- C1 (counterexample): a Japanese-resolved block with a 20-character
line (over the Japanese 13-character limit) receives zero warnings —
the validator has no Japanese processor and skips the block — so the
validator reports it compliant while a non-empty line exceeds its
per-line language's limit. -/
theorem compliant_japanese_block_exceeds_limit :
    blockWarnings exampleCfgEn none exampleJaBlock = []
      ∧ "ああああああああああああああああああああ".data ∈ exampleJaBlock.lines
      ∧ stripL "ああああああああああああああああああああ".data ≠ []
      ∧ exampleCfgEn.get_character_limit
          (detect_line_language "ああああああああああああああああああああ".data)
        < "ああああああああああああああああああああ".data.length := by
  with_unfolding_all decide

/-- C1 (witness): the amended theorem applied to a concrete
warning-free English block. -/
theorem compliant_block_within_char_limits_witness :
    processorExists (resolveBlockLang (some .en) exampleEnBlock) = true
      ∧ blockWarnings exampleCfgEn (some .en) exampleEnBlock = []
      ∧ "hello".data.length
          ≤ exampleCfgEn.get_character_limit (detect_line_language "hello".data) :=
  ⟨by decide, by with_unfolding_all decide,
   compliant_block_within_char_limits exampleCfgEn (some .en) exampleEnBlock
     (by decide) (by with_unfolding_all decide) "hello".data (by decide) (by decide)⟩

/-- C6 (amended): for a block whose resolved language has a registered
processor, with speed checking enabled, the validator records a
reading-speed violation exactly when the block's reading speed
(`character_count / duration_seconds`, `0` for non-positive duration)
strictly exceeds the reading-speed limit looked up for the config's
language and content type; at the boundary (speed = limit) no
violation is recorded.  (A block resolved to a language without a
processor — such as Japanese — is never flagged, which is the
counterexample to the original claim's "for every block".) -/
theorem speed_violation_iff (cfg : ProcessingConfig) (docLang : Option Lang)
    (b : SubtitleBlock)
    (hp : processorExists (resolveBlockLang docLang b) = true)
    (hs : cfg.noSpeedCheck = false) :
    Warning.mk b.index .speed ∈ blockWarnings cfg docLang b
      ↔ cfg.get_reading_speed_limit cfg.language < b.get_reading_speed := by
  unfold blockWarnings
  rw [if_pos hp]
  have hchar : Warning.mk b.index .speed ∉ b.lines.filterMap fun line =>
      if stripL line = [] then none
      else if line.length > cfg.get_character_limit (detect_line_language line) then
        some ⟨b.index, .charLimit⟩
      else none := by
    intro hmem
    rcases List.mem_filterMap.mp hmem with ⟨line, _, hf⟩
    split_ifs at hf <;> simp at hf
  have hspeed : (if cfg.noSpeedCheck then ([] : List Warning)
      else if validate_reading_speed cfg b then [] else [⟨b.index, .speed⟩])
      = (if cfg.get_reading_speed_limit cfg.language < b.get_reading_speed
         then [⟨b.index, .speed⟩] else []) := by
    unfold validate_reading_speed
    rw [hs]
    by_cases hv : b.get_reading_speed ≤ cfg.get_reading_speed_limit cfg.language
    · simp [hv, not_lt.mpr hv]
    · simp [hv, lt_of_not_le hv]
  rw [List.mem_append, hspeed]
  constructor
  · intro hmem
    rcases hmem with h | h
    · exact absurd h hchar
    · by_cases hlt : cfg.get_reading_speed_limit cfg.language < b.get_reading_speed
      · exact hlt
      · rw [if_neg hlt] at h
        cases h
  · intro hlt
    right
    rw [if_pos hlt]
    simp

/-- C6 (counterexample): a Japanese block reading at 5 chars/sec with
a 4 chars/sec limit and speed checking enabled gets no reading-speed
violation recorded — the validator skips blocks whose resolved
language has no registered processor. -/
theorem fast_japanese_block_not_flagged :
    exampleCfgJa.noSpeedCheck = false
      ∧ exampleCfgJa.get_reading_speed_limit exampleCfgJa.language
          < exampleJaSpeedBlock.get_reading_speed
      ∧ blockWarnings exampleCfgJa none exampleJaSpeedBlock = [] := by
  with_unfolding_all decide

/-- C6 (witness): the boundary example of the spec — 40 characters
over 2.0 seconds reads at exactly 20.0 chars/sec, equal to the
English adult limit, and is NOT flagged (strict `>` comparison). -/
theorem speed_violation_iff_witness :
    processorExists (resolveBlockLang (some .en) exampleBoundaryBlock) = true
      ∧ exampleCfgEn.noSpeedCheck = false
      ∧ exampleBoundaryBlock.get_reading_speed = 20
      ∧ exampleCfgEn.get_reading_speed_limit exampleCfgEn.language = 20
      ∧ Warning.mk 1 WarnKind.speed
          ∉ blockWarnings exampleCfgEn (some .en) exampleBoundaryBlock :=
  ⟨by decide, rfl, by with_unfolding_all decide, by decide,
   fun hmem =>
     absurd ((speed_violation_iff exampleCfgEn (some .en) exampleBoundaryBlock
        (by decide) rfl).mp hmem) (by with_unfolding_all decide)⟩

/-! ## C4: what terminates a block's text lines -/

theorem collectText_exists (ls : List PyStr) :
    ∃ n, n ≤ ls.length
      ∧ collectText ls = ((ls.take n).map rstripL, ls.drop n)
      ∧ (∀ k, k < n → stopLook (ls.drop k) = false)
      ∧ (ls.drop n = [] ∨ stopLook (ls.drop n) = true) := by
  induction ls with
  | nil => exact ⟨0, by simp [collectText]⟩
  | cons l rest ih =>
    by_cases h : stopLook (l :: rest) = true
    · refine ⟨0, by simp, by simp [collectText, h], by omega, Or.inr h⟩
    · obtain ⟨n, hn, heq, hno, hend⟩ := ih
      refine ⟨n + 1, by simpa using hn, ?_, ?_, ?_⟩
      · simp [collectText, h, heq]
      · intro k hk
        cases k with
        | zero => simpa [Bool.not_eq_true] using h
        | succ k => exact hno k (by omega)
      · simpa using hend

/-- C4 (amended): the text-line collection of `_parse_block` stops
ONLY at the end of input or at a line that strips to a bare integer
and is immediately followed by a line matching the time pattern; in
particular a blank line does not terminate the block — blank lines
are collected into the block's text (and only trailing ones are later
trimmed), so lines after an interior blank line still join the
block. -/
theorem collectText_termination (ls p q : List PyStr)
    (h : collectText ls = (p, q)) :
    (q = [] ∨ stopLook q = true)
      ∧ p = (ls.take (ls.length - q.length)).map rstripL
      ∧ ∀ k, k < ls.length - q.length → stopLook (ls.drop k) = false := by
  obtain ⟨n, hn, heq, hno, hend⟩ := collectText_exists ls
  rw [h] at heq
  have hp : p = (ls.take n).map rstripL := congrArg Prod.fst heq
  have hq : q = ls.drop n := congrArg Prod.snd heq
  have hqlen : q.length = ls.length - n := by rw [hq]; simp
  have hnn : ls.length - q.length = n := by omega
  rw [hnn]
  exact ⟨hq ▸ hend, hp, hno⟩

/-- C4 (counterexample): with input lines `hello`, blank, `world`
inside one block, the line after the blank still becomes part of the
block's text — a blank line does not terminate the text-line
sequence. -/
theorem blank_line_does_not_terminate_block :
    parse_content "1\n00:00:01,000 --> 00:00:02,000\nhello\n\nworld".data
      = .ok [⟨1, ⟨1000, 2000⟩, ["hello".data, [], "world".data], none, false⟩] := by
  decide

/-- C4 (witness): the amended theorem applied to a concrete tail of
lines: collection runs through the blank line and stops exactly at
the bare-integer/time-code lookahead. -/
theorem collectText_termination_witness :
    stopLook ["5".data, "00:00:01,000 --> 00:00:02,000".data] = true
      ∧ (["a".data, ([] : PyStr)]
          = ((["a".data, [], "5".data,
                "00:00:01,000 --> 00:00:02,000".data] : List PyStr).take
              ((["a".data, [], "5".data,
                  "00:00:01,000 --> 00:00:02,000".data] : List PyStr).length
                - (["5".data,
                    "00:00:01,000 --> 00:00:02,000".data] : List PyStr).length)).map
              rstripL) := by
  have h := collectText_termination
    ["a".data, [], "5".data, "00:00:01,000 --> 00:00:02,000".data]
    ["a".data, []] ["5".data, "00:00:01,000 --> 00:00:02,000".data] (by decide)
  refine ⟨?_, h.2.1⟩
  rcases h.1 with h1 | h1
  · exact absurd h1 (by decide)
  · exact h1

/-! ## C8: SDH-only removal and contiguous reindexing -/

theorem music_block_is_sdh_only {b : SubtitleBlock}
    (hmusic : stripL b.text = "♪♪".data) : is_sdh_only_block b = true := by
  have hlines : b.lines.isEmpty = false := by
    rcases hl : b.lines with _ | _
    · rw [SubtitleBlock.text, hl] at hmusic
      simp [pyJoin, stripL, lstripL, rstripL] at hmusic
    · rfl
  have hm : musicOnlyMatch "♪♪".data = true := by decide
  unfold is_sdh_only_block
  rw [hlines]
  simp [hmusic, hm]

theorem snd_mem_of_mem_enum {α : Type} {p : ℕ × α} {l : List α}
    (h : p ∈ l.enum) : p.2 ∈ l := by
  rw [List.enum_eq_zip_range] at h
  exact (List.of_mem_zip ((by simp : p = (p.1, p.2)) ▸ h)).2

theorem mem_of_mem_final_blocks {doc : SRTDocument} {b' : SubtitleBlock}
    (hb' : b' ∈ (remove_sdh_blocks_and_clean_content doc).blocks) :
    ∃ b ∈ doc.blocks, is_sdh_only_block b = false
      ∧ b'.lines = (clean_sdh_markers b).lines := by
  unfold remove_sdh_blocks_and_clean_content at hb'
  simp only at hb'
  rcases List.mem_map.mp hb' with ⟨p, hp, rfl⟩
  rcases List.mem_filterMap.mp (snd_mem_of_mem_enum hp) with ⟨b, hb, hg⟩
  by_cases h1 : is_sdh_only_block b = true
  · rw [if_pos h1] at hg
    cases hg
  · rw [if_neg h1] at hg
    by_cases h2 : (clean_sdh_markers b).lines.isEmpty = true
    · rw [if_pos h2] at hg
      cases hg
    · rw [if_neg h2] at hg
      by_cases h3 :
          ((clean_sdh_markers b).lines.any fun l => !(stripL l).isEmpty) = true
      · rw [if_pos h3] at hg
        have h := Option.some.inj hg
        refine ⟨b, hb, by simpa using h1, ?_⟩
        show p.2.lines = (clean_sdh_markers b).lines
        rw [h]
      · rw [if_neg h3] at hg
        cases hg

/-- C8: after `remove_sdh_blocks_and_clean_content`, (i) the block
indices are exactly 1, 2, ..., n in order; (ii) every block whose
whole stripped text is `♪♪` is classified SDH-only, and (iii) every
surviving block stems from a block that is NOT SDH-only — so the
`♪♪`-only blocks are dropped. -/
theorem sdh_removal_drops_music_and_reindexes (doc : SRTDocument) :
    ((remove_sdh_blocks_and_clean_content doc).blocks.map SubtitleBlock.index
        = List.range' 1 (remove_sdh_blocks_and_clean_content doc).blocks.length)
      ∧ (∀ b ∈ doc.blocks, stripL b.text = "♪♪".data → is_sdh_only_block b = true)
      ∧ (∀ b' ∈ (remove_sdh_blocks_and_clean_content doc).blocks,
          ∃ b ∈ doc.blocks, is_sdh_only_block b = false
            ∧ b'.lines = (clean_sdh_markers b).lines) := by
  refine ⟨?_, fun b _ h => music_block_is_sdh_only h,
    fun b' hb' => mem_of_mem_final_blocks hb'⟩
  unfold remove_sdh_blocks_and_clean_content
  simp only [List.map_map, List.length_map]
  rw [show (SubtitleBlock.index ∘ fun p : ℕ × SubtitleBlock =>
      { p.2 with index := p.1 + 1 }) = (fun p : ℕ × SubtitleBlock => p.1 + 1)
    from rfl]
  rw [show (fun p : ℕ × SubtitleBlock => p.1 + 1)
      = ((fun i => i + 1) ∘ Prod.fst) from rfl]
  rw [← List.map_map, List.enum_map_fst, List.enum_length]
  rw [List.range'_eq_map_range]
  congr 1
  funext i
  omega

/-- C8 (witness): the theorem applied to a concrete document — the
`♪♪` block is SDH-only and the surviving block is renumbered to the
contiguous sequence starting at 1. -/
theorem sdh_removal_drops_music_and_reindexes_witness :
    ((remove_sdh_blocks_and_clean_content exampleSdhDoc).blocks.map
        SubtitleBlock.index
      = List.range' 1
          (remove_sdh_blocks_and_clean_content exampleSdhDoc).blocks.length)
      ∧ is_sdh_only_block ⟨1, ⟨0, 1000⟩, ["♪♪".data], none, false⟩ = true :=
  ⟨(sdh_removal_drops_music_and_reindexes exampleSdhDoc).1,
   (sdh_removal_drops_music_and_reindexes exampleSdhDoc).2.1
     ⟨1, ⟨0, 1000⟩, ["♪♪".data], none, false⟩ (by decide) (by decide)⟩

/-! ## C9: the caller's config under processing -/

/-- C9 (amended): processing never touches the content-type, SDH-mode,
speed-check, punctuation-fix or SDH-removal fields of the caller's
config, and with an explicit (non-auto) target language the config
comes through identically — the bilingual path builds a fresh config
value via `dataclasses.replace`.  But in auto-language mode
`process_file` assigns the detected language into the caller's
config's `language` field, a genuine mutation of the caller's
object. -/
theorem process_file_config_state (cfg : ProcessingConfig) (doc : SRTDocument) :
    ((process_file_state cfg doc).1.contentType = cfg.contentType
      ∧ (process_file_state cfg doc).1.sdhMode = cfg.sdhMode
      ∧ (process_file_state cfg doc).1.noSpeedCheck = cfg.noSpeedCheck
      ∧ (process_file_state cfg doc).1.noPunctFix = cfg.noPunctFix
      ∧ (process_file_state cfg doc).1.removeSdh = cfg.removeSdh)
    ∧ (cfg.language ≠ .auto → (process_file_state cfg doc).1 = cfg)
    ∧ (cfg.language = .auto →
        (process_file_state cfg doc).1.language = detect_language doc) := by
  unfold process_file_state
  by_cases h : cfg.language = .auto
  · simp [h]
  · simp [h]

/-- C9 (counterexample): running whole-file processing in auto mode
on a concrete document leaves `self.config` different from the
caller-supplied config — its language field now holds the detected
language. -/
theorem process_file_auto_mode_mutates_config :
    (process_file_state exampleAutoCfg exampleWsDoc).1 ≠ exampleAutoCfg := by
  with_unfolding_all decide

/-- C9 (witness): with a non-auto config the pipeline returns the
caller's config unchanged. -/
theorem process_file_config_state_witness :
    (process_file_state exampleCfgZh exampleWsDoc).1 = exampleCfgZh :=
  (process_file_config_state exampleCfgZh exampleWsDoc).2.1 (by decide)

/-! ## Decimal rendering and parsing lemmas -/

theorem natToCharsF_eq_of_lt :
    ∀ n f g : ℕ, n < f → n < g → natToCharsF f n = natToCharsF g n := by
  intro n
  induction n using Nat.strong_induction_on with
  | _ n ih =>
    intro f g hf hg
    match f, g with
    | f + 1, g + 1 =>
      simp only [natToCharsF]
      by_cases h : n < 10
      · simp [h]
      · rw [if_neg h, if_neg h]
        have hd : n / 10 < n := Nat.div_lt_self (by omega) (by omega)
        rw [ih (n / 10) hd f (g + 1) (by omega) (by omega),
          ih (n / 10) hd (g + 1) g (by omega) (by omega)]

theorem natToChars_small {n : ℕ} (h : n < 10) :
    natToChars n = [Nat.digitChar n] := by
  simp [natToChars, natToCharsF, h]

theorem natToChars_unfold {n : ℕ} (h : 10 ≤ n) :
    natToChars n = natToChars (n / 10) ++ [Nat.digitChar (n % 10)] := by
  unfold natToChars
  conv =>
    lhs
    simp only [natToCharsF]
  rw [if_neg (by omega)]
  rw [natToCharsF_eq_of_lt (n / 10) n (n / 10 + 1)
    (Nat.div_lt_self (by omega) (by omega)) (by omega)]

theorem digitChar_isDigit {d : ℕ} (h : d < 10) :
    isAsciiDigit (Nat.digitChar d) = true := by
  interval_cases d <;> decide

theorem digitChar_val {d : ℕ} (h : d < 10) :
    (Nat.digitChar d).toNat - 48 = d := by
  interval_cases d <;> decide

theorem natToChars_all_digits :
    ∀ n, ∀ c ∈ natToChars n, isAsciiDigit c = true := by
  intro n
  induction n using Nat.strong_induction_on with
  | _ n ih =>
    intro c hc
    by_cases h : n < 10
    · rw [natToChars_small h] at hc
      simp at hc
      rw [hc]
      exact digitChar_isDigit h
    · rw [natToChars_unfold (by omega)] at hc
      rcases List.mem_append.mp hc with h1 | h1
      · exact ih (n / 10) (Nat.div_lt_self (by omega) (by omega)) c h1
      · simp at h1
        rw [h1]
        exact digitChar_isDigit (Nat.mod_lt n (by omega))

theorem natToChars_ne_nil (n : ℕ) : natToChars n ≠ [] := by
  by_cases h : n < 10
  · rw [natToChars_small h]; simp
  · rw [natToChars_unfold (by omega)]; simp

theorem digitsVal_append_singleton (xs : PyStr) (c : Char) :
    digitsVal (xs ++ [c]) = 10 * digitsVal xs + (c.toNat - 48) := by
  simp [digitsVal, List.foldl_append]

theorem digitsVal_natToChars : ∀ n, digitsVal (natToChars n) = n := by
  intro n
  induction n using Nat.strong_induction_on with
  | _ n ih =>
    by_cases h : n < 10
    · rw [natToChars_small h]
      show 10 * 0 + ((Nat.digitChar n).toNat - 48) = n
      rw [digitChar_val h]
      omega
    · rw [natToChars_unfold (by omega), digitsVal_append_singleton,
        ih (n / 10) (Nat.div_lt_self (by omega) (by omega)),
        digitChar_val (Nat.mod_lt n (by omega))]
      omega

theorem digitsVal_cons_zero (s : PyStr) : digitsVal ('0' :: s) = digitsVal s := by
  simp [digitsVal]

theorem natToChars_length_one {n : ℕ} (h : n < 10) :
    (natToChars n).length = 1 := by
  rw [natToChars_small h]; rfl

theorem natToChars_length_two {n : ℕ} (h1 : 10 ≤ n) (h2 : n ≤ 99) :
    (natToChars n).length = 2 := by
  rw [natToChars_unfold h1]
  rw [List.length_append, natToChars_length_one (by omega)]
  rfl

theorem natToChars_length_three {n : ℕ} (h1 : 100 ≤ n) (h2 : n ≤ 999) :
    (natToChars n).length = 3 := by
  rw [natToChars_unfold (by omega)]
  rw [List.length_append, natToChars_length_two (by omega) (by omega)]
  rfl

theorem pad2_two_digits {n : ℕ} (h : n ≤ 99) :
    ∃ a b, pad2 n = [a, b] ∧ isAsciiDigit a = true ∧ isAsciiDigit b = true := by
  unfold pad2
  by_cases h10 : n < 10
  · rw [if_pos h10, natToChars_small h10]
    exact ⟨'0', Nat.digitChar n, rfl, by decide, digitChar_isDigit h10⟩
  · rw [if_neg h10]
    have hl := natToChars_length_two (by omega) h
    rcases hc : natToChars n with _ | ⟨a, _ | ⟨b, _ | _⟩⟩ <;>
      rw [hc] at hl <;> try simp at hl
    exact ⟨a, b, rfl, natToChars_all_digits n a (by rw [hc]; simp),
      natToChars_all_digits n b (by rw [hc]; simp)⟩

theorem pad3_three_digits {n : ℕ} (h : n ≤ 999) :
    ∃ a b c, pad3 n = [a, b, c] ∧ isAsciiDigit a = true ∧ isAsciiDigit b = true
      ∧ isAsciiDigit c = true := by
  unfold pad3
  by_cases h10 : n < 10
  · rw [if_pos h10, natToChars_small h10]
    exact ⟨'0', '0', Nat.digitChar n, rfl, by decide, by decide,
      digitChar_isDigit h10⟩
  · rw [if_neg h10]
    by_cases h100 : n < 100
    · rw [if_pos h100]
      have hl := @natToChars_length_two n (by omega) (by omega)
      rcases hc : natToChars n with _ | ⟨a, _ | ⟨b, _ | _⟩⟩ <;>
        rw [hc] at hl <;> try simp at hl
      exact ⟨'0', a, b, rfl, by decide,
        natToChars_all_digits n a (by rw [hc]; simp),
        natToChars_all_digits n b (by rw [hc]; simp)⟩
    · rw [if_neg h100]
      have hl := natToChars_length_three (by omega) h
      rcases hc : natToChars n with _ | ⟨a, _ | ⟨b, _ | ⟨c, _ | _⟩⟩⟩ <;>
        rw [hc] at hl <;> try simp at hl
      exact ⟨a, b, c, rfl,
        natToChars_all_digits n a (by rw [hc]; simp),
        natToChars_all_digits n b (by rw [hc]; simp),
        natToChars_all_digits n c (by rw [hc]; simp)⟩

theorem digitsVal_pad2 {n : ℕ} (h : n ≤ 99) : digitsVal (pad2 n) = n := by
  unfold pad2
  by_cases h10 : n < 10
  · rw [if_pos h10, digitsVal_cons_zero, digitsVal_natToChars]
  · rw [if_neg h10, digitsVal_natToChars]

theorem digitsVal_pad3 {n : ℕ} (h : n ≤ 999) : digitsVal (pad3 n) = n := by
  unfold pad3
  by_cases h10 : n < 10
  · rw [if_pos h10, digitsVal_cons_zero, digitsVal_cons_zero,
      digitsVal_natToChars]
  · rw [if_neg h10]
    by_cases h100 : n < 100
    · rw [if_pos h100, digitsVal_cons_zero, digitsVal_natToChars]
    · rw [if_neg h100, digitsVal_natToChars]

/-! ## `int()` and strip on digit strings -/

theorem isAsciiDigit_not_ws {c : Char} (h : isAsciiDigit c = true) :
    pyIsWs c = false := by
  have hn : 48 ≤ c.toNat ∧ c.toNat ≤ 57 := by
    simpa [isAsciiDigit] using h
  by_cases hw : pyIsWs c = true
  · exfalso
    have hc : c ∈ pyWsChars := by
      simpa [pyIsWs, List.contains_iff_exists_mem_beq] using hw
    fin_cases hc <;> simp_all
  · simpa using hw

theorem pyInt_digits {s : PyStr} (hne : s ≠ [])
    (hd : ∀ c ∈ s, isAsciiDigit c = true) :
    pyInt s = some ((digitsVal s : ℕ) : ℤ) := by
  have hs : stripL s = s :=
    stripL_of_no_ws (fun c hc => isAsciiDigit_not_ws (hd c hc))
  unfold pyInt
  simp only [hs]
  split
  · exfalso
    have := hd '-' (by simp)
    simp [isAsciiDigit] at this
  · exfalso
    have := hd '+' (by simp)
    simp [isAsciiDigit] at this
  · rw [if_pos ⟨hne, List.all_eq_true.mpr hd⟩]

/-! ## Time-pattern scan on canonical renderings -/

theorem scanTimeStamp_render {h m s ms : ℕ} (hh : h ≤ 99) (hm : m ≤ 99)
    (hs : s ≤ 99) (hms : ms ≤ 999) (r : PyStr) :
    scanTimeStamp (renderTimeFields h m s ms ++ r) = some r := by
  obtain ⟨a1, a2, ha, da1, da2⟩ := pad2_two_digits hh
  obtain ⟨b1, b2, hb, db1, db2⟩ := pad2_two_digits hm
  obtain ⟨c1, c2, hc, dc1, dc2⟩ := pad2_two_digits hs
  obtain ⟨d1, d2, d3, hd, dd1, dd2, dd3⟩ := pad3_three_digits hms
  unfold renderTimeFields
  rw [ha, hb, hc, hd]
  simp [scanTimeStamp, scanDigit2, scanDigit3, scanChar, da1, da2, db1, db2,
    dc1, dc2, dd1, dd2, dd3]

theorem renderTimeFields_chars {h m s ms : ℕ} (hh : h ≤ 99) (hm : m ≤ 99)
    (hs : s ≤ 99) (hms : ms ≤ 999) :
    ∀ c ∈ renderTimeFields h m s ms,
      isAsciiDigit c = true ∨ c = ':' ∨ c = ',' := by
  obtain ⟨a1, a2, ha, da1, da2⟩ := pad2_two_digits hh
  obtain ⟨b1, b2, hb, db1, db2⟩ := pad2_two_digits hm
  obtain ⟨c1, c2, hc, dc1, dc2⟩ := pad2_two_digits hs
  obtain ⟨d1, d2, d3, hd, dd1, dd2, dd3⟩ := pad3_three_digits hms
  unfold renderTimeFields
  rw [ha, hb, hc, hd]
  intro c hc'
  simp at hc'
  rcases hc' with h | h | h | h | h | h | h | h | h | h | h | h <;>
    subst h <;> simp_all

theorem timePatternMatch_render {h1 m1 s1 ms1 h2 m2 s2 ms2 : ℕ}
    (hh1 : h1 ≤ 99) (hm1 : m1 ≤ 99) (hs1 : s1 ≤ 99) (hms1 : ms1 ≤ 999)
    (hh2 : h2 ≤ 99) (hm2 : m2 ≤ 99) (hs2 : s2 ≤ 99) (hms2 : ms2 ≤ 999) :
    timePatternMatch
      (renderTimeFields h1 m1 s1 ms1 ++ " --> ".data
        ++ renderTimeFields h2 m2 s2 ms2) = true := by
  unfold timePatternMatch
  rw [show (" --> ".data : PyStr) = ' ' :: '-' :: '-' :: '>' :: [' '] from rfl]
  rw [show renderTimeFields h1 m1 s1 ms1
        ++ (' ' :: '-' :: '-' :: '>' :: [' '])
        ++ renderTimeFields h2 m2 s2 ms2
      = renderTimeFields h1 m1 s1 ms1
        ++ (' ' :: '-' :: '-' :: '>' :: ' ' :: renderTimeFields h2 m2 s2 ms2)
    by simp]
  rw [scanTimeStamp_render hh1 hm1 hs1 hms1]
  obtain ⟨b1, b2, hb, db1, db2⟩ := pad2_two_digits hh2
  have hdw : List.dropWhile pyIsWs (' ' :: renderTimeFields h2 m2 s2 ms2)
      = renderTimeFields h2 m2 s2 ms2 := by
    unfold renderTimeFields
    rw [hb]
    simp only [List.dropWhile]
    rw [show pyIsWs ' ' = true from by decide, isAsciiDigit_not_ws db1]
    simp
  simp only [List.dropWhile]
  rw [show pyIsWs ' ' = true from by decide]
  simp only [List.dropWhile]
  rw [show pyIsWs '-' = false from by decide]
  rw [show scanLit "-->".data ('-' :: '-' :: '>' :: ' '
      :: renderTimeFields h2 m2 s2 ms2)
    = some (' ' :: renderTimeFields h2 m2 s2 ms2) from by
      simp [scanLit, startsWithL]]
  simp only [Option.isSome]
  rw [hdw]
  have := scanTimeStamp_render hh2 hm2 hs2 hms2 []
  rw [List.append_nil] at this
  rw [this]

/-! ## `str.split` on strings with known separator positions -/

theorem splitGo_no_head {s0 : Char} {stail : PyStr} :
    ∀ (xs acc : PyStr), (∀ c ∈ xs, c ≠ s0) →
      splitGo (s0 :: stail) 0 acc xs = [acc.reverse ++ xs] := by
  intro xs
  induction xs with
  | nil => intro acc _; simp [splitGo]
  | cons c cs ih =>
    intro acc hc
    have hne : startsWithL (s0 :: stail) (c :: cs) = false := by
      simp [startsWithL]
      intro habs
      exact absurd habs.symm (hc c (by simp))
    simp only [splitGo, hne, Bool.false_eq_true, if_false]
    rw [ih (c :: acc) (fun d hd => hc d (by simp [hd]))]
    simp

theorem splitGo_skip {sep : PyStr} :
    ∀ (zs : PyStr) (acc rest : PyStr),
      splitGo sep zs.length acc (zs ++ rest) = splitGo sep 0 acc rest := by
  intro zs
  induction zs with
  | nil => intro acc rest; rfl
  | cons z zs ih =>
    intro acc rest
    simp only [List.length_cons, List.cons_append, splitGo]
    exact ih acc rest

theorem startsWithL_append_self :
    ∀ (p r : PyStr), startsWithL p (p ++ r) = true := by
  intro p
  induction p with
  | nil => intro r; rfl
  | cons c cs ih => intro r; simp [startsWithL, ih]

theorem splitGo_match {s0 : Char} {stail : PyStr} :
    ∀ (xs acc ys : PyStr), (∀ c ∈ xs, c ≠ s0) →
      splitGo (s0 :: stail) 0 acc (xs ++ (s0 :: stail) ++ ys)
        = (acc.reverse ++ xs) :: splitGo (s0 :: stail) 0 [] ys := by
  intro xs
  induction xs with
  | nil =>
    intro acc ys _
    have hsw : startsWithL (s0 :: stail) (s0 :: (stail ++ ys)) = true := by
      simpa using startsWithL_append_self (s0 :: stail) ys
    show splitGo (s0 :: stail) 0 acc ([] ++ (s0 :: stail) ++ ys)
        = (acc.reverse ++ []) :: splitGo (s0 :: stail) 0 [] ys
    rw [show ([] ++ (s0 :: stail) ++ ys : PyStr) = s0 :: (stail ++ ys) by simp]
    rw [show splitGo (s0 :: stail) 0 acc (s0 :: (stail ++ ys))
        = (if startsWithL (s0 :: stail) (s0 :: (stail ++ ys)) then
            acc.reverse
              :: splitGo (s0 :: stail) ((s0 :: stail).length - 1) [] (stail ++ ys)
          else splitGo (s0 :: stail) 0 (s0 :: acc) (stail ++ ys)) from rfl]
    rw [if_pos hsw]
    rw [show (s0 :: stail : PyStr).length - 1 = stail.length from by simp]
    rw [splitGo_skip stail [] ys]
    simp
  | cons c cs ih =>
    intro acc ys hc
    have hne : startsWithL (s0 :: stail) (c :: (cs ++ ((s0 :: stail) ++ ys)))
        = false := by
      simp [startsWithL]
      intro habs
      exact absurd habs.symm (hc c (by simp))
    simp only [List.cons_append] at hne
    show splitGo (s0 :: stail) 0 acc ((c :: cs) ++ (s0 :: stail) ++ ys)
        = (acc.reverse ++ (c :: cs)) :: splitGo (s0 :: stail) 0 [] ys
    rw [show ((c :: cs) ++ (s0 :: stail) ++ ys : PyStr)
        = c :: (cs ++ (s0 :: (stail ++ ys))) by simp]
    rw [show splitGo (s0 :: stail) 0 acc (c :: (cs ++ (s0 :: (stail ++ ys))))
        = (if startsWithL (s0 :: stail) (c :: (cs ++ (s0 :: (stail ++ ys)))) then
            acc.reverse
              :: splitGo (s0 :: stail) ((s0 :: stail).length - 1) []
                  (cs ++ (s0 :: (stail ++ ys)))
          else splitGo (s0 :: stail) 0 (c :: acc) (cs ++ (s0 :: (stail ++ ys))))
      from rfl]
    rw [if_neg (by simp [hne])]
    have hrec := ih (c :: acc) ys (fun d hd => hc d (by simp [hd]))
    simp only [List.cons_append, List.append_assoc] at hrec
    rw [hrec]
    simp

theorem pySplit_sep_once {sep xs ys : PyStr} (hsep : sep ≠ [])
    (hxs : ∀ c ∈ xs, c ≠ sep.headD ' ') (hys : ∀ c ∈ ys, c ≠ sep.headD ' ') :
    pySplit sep (xs ++ sep ++ ys) = [xs, ys] := by
  rcases sep with _ | ⟨s0, stail⟩
  · exact absurd rfl hsep
  · unfold pySplit
    rw [splitGo_match xs [] ys (by simpa using hxs)]
    rw [splitGo_no_head ys [] (by simpa using hys)]
    simp

theorem pySplit_no_sep {sep xs : PyStr} (hsep : sep ≠ [])
    (hxs : ∀ c ∈ xs, c ≠ sep.headD ' ') : pySplit sep xs = [xs] := by
  rcases sep with _ | ⟨s0, stail⟩
  · exact absurd rfl hsep
  · unfold pySplit
    rw [splitGo_no_head xs [] (by simpa using hxs)]
    simp

/-! ## C3: time-code parsing -/

theorem isAsciiDigit_ne {c : Char} (h : isAsciiDigit c = true) :
    c ≠ ':' ∧ c ≠ ',' ∧ c ≠ ' ' ∧ c ≠ '\n' := by
  refine ⟨?_, ?_, ?_, ?_⟩ <;> (intro he; subst he; exact absurd h (by decide))

theorem pad2_ne_colon {n : ℕ} (h : n ≤ 99) : ∀ c ∈ pad2 n, c ≠ ':' := by
  obtain ⟨a, b, hab, da, db⟩ := pad2_two_digits h
  rw [hab]
  intro c hc
  rcases (by simpa using hc : c = a ∨ c = b) with rfl | rfl
  · exact (isAsciiDigit_ne da).1
  · exact (isAsciiDigit_ne db).1

theorem parse_time_render {h m s ms : ℕ} (hh : h ≤ 99) (hm : m ≤ 99)
    (hs : s ≤ 99) (hms : ms ≤ 999) :
    parse_time (renderTimeFields h m s ms)
      = some ⟨(h : ℤ), (m : ℤ), (s : ℤ), (ms : ℤ)⟩ := by
  obtain ⟨a1, a2, hpa, da1, da2⟩ := pad2_two_digits hs
  obtain ⟨d1, d2, d3, hpd, dd1, dd2, dd3⟩ := pad3_three_digits hms
  have hsplit : pySplit [':'] (renderTimeFields h m s ms)
      = [pad2 h, pad2 m, pad2 s ++ ',' :: pad3 ms] := by
    show splitGo [':'] 0 [] _ = _
    rw [show renderTimeFields h m s ms
        = pad2 h ++ ([':'] ++ (pad2 m ++ ([':'] ++ (pad2 s ++ ',' :: pad3 ms))))
      from by simp [renderTimeFields]]
    rw [show pad2 h ++ ([':'] ++ (pad2 m ++ ([':'] ++ (pad2 s ++ ',' :: pad3 ms))))
        = pad2 h ++ [':'] ++ (pad2 m ++ [':'] ++ (pad2 s ++ ',' :: pad3 ms))
      from by simp]
    rw [splitGo_match (pad2 h) [] _ (pad2_ne_colon hh)]
    rw [splitGo_match (pad2 m) [] _ (pad2_ne_colon hm)]
    rw [splitGo_no_head (pad2 s ++ ',' :: pad3 ms) [] ?hno]
    case hno =>
      intro c hc
      rcases List.mem_append.mp hc with h1 | h1
      · rw [hpa] at h1
        rcases (by simpa using h1 : c = a1 ∨ c = a2) with rfl | rfl
        · exact (isAsciiDigit_ne da1).1
        · exact (isAsciiDigit_ne da2).1
      · rcases (by simpa using h1 : c = ',' ∨ c ∈ pad3 ms) with rfl | h2
        · decide
        · rw [hpd] at h2
          rcases (by simpa using h2 : c = d1 ∨ c = d2 ∨ c = d3) with
            rfl | rfl | rfl
          · exact (isAsciiDigit_ne dd1).1
          · exact (isAsciiDigit_ne dd2).1
          · exact (isAsciiDigit_ne dd3).1
    simp
  have hsplit2 : pySplit [','] (pad2 s ++ ',' :: pad3 ms)
      = [pad2 s, pad3 ms] := by
    show splitGo [','] 0 [] _ = _
    rw [show pad2 s ++ ',' :: pad3 ms = pad2 s ++ [','] ++ pad3 ms from by simp]
    rw [splitGo_match (pad2 s) [] _ ?hps]
    case hps =>
      intro c hc
      rw [hpa] at hc
      rcases (by simpa using hc : c = a1 ∨ c = a2) with rfl | rfl
      · exact (isAsciiDigit_ne da1).2.1
      · exact (isAsciiDigit_ne da2).2.1
    rw [splitGo_no_head (pad3 ms) [] ?hpms]
    case hpms =>
      intro c hc
      rw [hpd] at hc
      rcases (by simpa using hc : c = d1 ∨ c = d2 ∨ c = d3) with rfl | rfl | rfl
      · exact (isAsciiDigit_ne dd1).2.1
      · exact (isAsciiDigit_ne dd2).2.1
      · exact (isAsciiDigit_ne dd3).2.1
    simp
  have hint2 : ∀ {n : ℕ}, n ≤ 99 → pyInt (pad2 n) = some ((n : ℕ) : ℤ) := by
    intro n hn
    obtain ⟨x, y, hxy, dx, dy⟩ := pad2_two_digits hn
    have := @pyInt_digits (pad2 n) (by rw [hxy]; simp) ?hd
    case hd =>
      intro c hc
      rw [hxy] at hc
      rcases (by simpa using hc : c = x ∨ c = y) with rfl | rfl <;> assumption
    rw [this, digitsVal_pad2 hn]
  have hint3 : pyInt (pad3 ms) = some ((ms : ℕ) : ℤ) := by
    have := @pyInt_digits (pad3 ms) (by rw [hpd]; simp) ?hd
    case hd =>
      intro c hc
      rw [hpd] at hc
      rcases (by simpa using hc : c = d1 ∨ c = d2 ∨ c = d3) with rfl | rfl | rfl <;>
        assumption
    rw [this, digitsVal_pad3 hms]
  unfold parse_time
  rw [hsplit]
  simp only []
  rw [hsplit2]
  simp only []
  rw [hint2 hh, hint2 hm, hint2 hs, hint3]

theorem renderTimeFields_no_space {h m s ms : ℕ} (hh : h ≤ 99) (hm : m ≤ 99)
    (hs : s ≤ 99) (hms : ms ≤ 999) :
    ∀ c ∈ renderTimeFields h m s ms, c ≠ ' ' := by
  intro c hc
  rcases renderTimeFields_chars hh hm hs hms c hc with hd | rfl | rfl
  · exact (isAsciiDigit_ne hd).2.2.1
  · decide
  · decide

theorem from_srt_time_render {h1 m1 s1 ms1 h2 m2 s2 ms2 : ℕ}
    (hh1 : h1 ≤ 99) (hm1 : m1 ≤ 99) (hs1 : s1 ≤ 99) (hms1 : ms1 ≤ 999)
    (hh2 : h2 ≤ 99) (hm2 : m2 ≤ 99) (hs2 : s2 ≤ 99) (hms2 : ms2 ≤ 999) :
    from_srt_time (renderTimeFields h1 m1 s1 ms1 ++ " --> ".data
        ++ renderTimeFields h2 m2 s2 ms2)
      = some (⟨(h1 : ℤ), (m1 : ℤ), (s1 : ℤ), (ms1 : ℤ)⟩,
              ⟨(h2 : ℤ), (m2 : ℤ), (s2 : ℤ), (ms2 : ℤ)⟩) := by
  unfold from_srt_time
  rw [pySplit_sep_once (by decide)
    (fun c hc => by
      simpa using renderTimeFields_no_space hh1 hm1 hs1 hms1 c hc)
    (fun c hc => by
      simpa using renderTimeFields_no_space hh2 hm2 hs2 hms2 c hc)]
  simp only []
  rw [parse_time_render hh1 hm1 hs1 hms1, parse_time_render hh2 hm2 hs2 hms2]

theorem parseTimeLine_render {h1 m1 s1 ms1 h2 m2 s2 ms2 : ℕ}
    (hh1 : h1 ≤ 99) (hm1 : m1 ≤ 99) (hs1 : s1 ≤ 99) (hms1 : ms1 ≤ 999)
    (hh2 : h2 ≤ 99) (hm2 : m2 ≤ 99) (hs2 : s2 ≤ 99) (hms2 : ms2 ≤ 999) :
    parseTimeLine (renderTimeFields h1 m1 s1 ms1 ++ " --> ".data
        ++ renderTimeFields h2 m2 s2 ms2)
      = some (⟨(h1 : ℤ), (m1 : ℤ), (s1 : ℤ), (ms1 : ℤ)⟩,
              ⟨(h2 : ℤ), (m2 : ℤ), (s2 : ℤ), (ms2 : ℤ)⟩) := by
  unfold parseTimeLine
  rw [if_pos (timePatternMatch_render hh1 hm1 hs1 hms1 hh2 hm2 hs2 hms2)]
  exact from_srt_time_render hh1 hm1 hs1 hms1 hh2 hm2 hs2 hms2

/-- C3 (amended): a time line that does not match the anchored
pattern `\d\d:\d\d:\d\d,\d\d\d\s*-->\s*\d\d:\d\d:\d\d,\d\d\d` is
rejected; but the numeric fields are constrained ONLY by their digit
counts — every canonical line whose hours, minutes and seconds are at
most 99 and whose milliseconds are at most 999 is accepted with
exactly those field values.  No range validation to 59 (or to 999 for
trailing-digit tails on the end timestamp) is performed; values such
as minutes = 75 are accepted, not rejected. -/
theorem time_parsing_digit_bounds :
    (∀ s : PyStr, timePatternMatch s = false → parseTimeLine s = none)
  ∧ (∀ h1 m1 s1 ms1 h2 m2 s2 ms2 : ℕ,
      h1 ≤ 99 → m1 ≤ 99 → s1 ≤ 99 → ms1 ≤ 999 →
      h2 ≤ 99 → m2 ≤ 99 → s2 ≤ 99 → ms2 ≤ 999 →
      parseTimeLine (renderTimeFields h1 m1 s1 ms1 ++ " --> ".data
          ++ renderTimeFields h2 m2 s2 ms2)
        = some (⟨(h1 : ℤ), (m1 : ℤ), (s1 : ℤ), (ms1 : ℤ)⟩,
                ⟨(h2 : ℤ), (m2 : ℤ), (s2 : ℤ), (ms2 : ℤ)⟩)) :=
  ⟨fun s hs => by unfold parseTimeLine; rw [if_neg (by simp [hs])],
   fun h1 m1 s1 ms1 h2 m2 s2 ms2 hh1 hm1 hs1 hms1 hh2 hm2 hs2 hms2 =>
     parseTimeLine_render hh1 hm1 hs1 hms1 hh2 hm2 hs2 hms2⟩

/-- C3 (counterexample): `00:75:00,000 --> 00:76:00,000` — minutes 75
and 76, far outside [0,59] — is accepted without error, with the
out-of-range field values passed straight to `timedelta`. -/
theorem minutes_75_accepted :
    parseTimeLine "00:75:00,000 --> 00:76:00,000".data
      = some (⟨0, 75, 0, 0⟩, ⟨0, 76, 0, 0⟩)
    ∧ ¬ ((75 : ℤ) ≤ 59) := ⟨by decide, by decide⟩

/-- C3 (witness): the amended theorem applied to both a rejected
input and an accepted out-of-SRT-range input. -/
theorem time_parsing_digit_bounds_witness :
    parseTimeLine "not a time".data = none
      ∧ parseTimeLine (renderTimeFields 0 75 0 0 ++ " --> ".data
          ++ renderTimeFields 0 76 0 0)
        = some (⟨0, 75, 0, 0⟩, ⟨0, 76, 0, 0⟩) :=
  ⟨time_parsing_digit_bounds.1 "not a time".data (by decide),
   time_parsing_digit_bounds.2 0 75 0 0 0 76 0 0 (by decide) (by decide)
     (by decide) (by decide) (by decide) (by decide) (by decide) (by decide)⟩

/-! ## C2: parse–serialize round trip -/

theorem stopLook_false_of_noStopPair {l l2 : PyStr} (hR : noStopPair l l2)
    (r : List PyStr) : stopLook (l :: l2 :: r) = false := by
  unfold noStopPair at hR
  show (pyIsDigitStr (stripL l) && timePatternMatch (stripL l2)) = false
  cases hA : pyIsDigitStr (stripL l) <;> cases hB : timePatternMatch (stripL l2)
  · rfl
  · rfl
  · rfl
  · exact absurd ⟨hA, hB⟩ hR

theorem stopLook_snd_nil (l : PyStr) (r : List PyStr) :
    stopLook (l :: [] :: r) = false := by
  show (pyIsDigitStr (stripL l) && timePatternMatch (stripL [])) = false
  rw [show timePatternMatch (stripL []) = false from by decide]
  simp

theorem collectText_stop {q : List PyStr} (h : stopLook q = true) :
    collectText q = ([], q) := by
  cases q with
  | nil => simp [stopLook] at h
  | cons l rest => simp [collectText, h]

/-- Text collection over the last block's lines: with no internal
stop pair, every line is collected (rstripped) and nothing remains. -/
theorem collectText_chain_last :
    ∀ lines : List PyStr, List.Chain' noStopPair lines →
      collectText lines = (lines.map rstripL, []) := by
  intro lines
  induction lines with
  | nil => intro _; rfl
  | cons l ls ih =>
    intro hch
    have hstop : stopLook (l :: ls) = false := by
      cases ls with
      | nil => rfl
      | cons l2 ls2 =>
        exact stopLook_false_of_noStopPair (List.chain'_cons.mp hch).1 ls2
    rw [show collectText (l :: ls)
        = (rstripL l :: (collectText ls).1, (collectText ls).2) from by
      simp [collectText, hstop]]
    rw [ih hch.tail]
    simp

/-- Text collection over an interior block's lines: the blank
separator line is collected too, and the stop lookahead fires exactly
at the next block's index line. -/
theorem collectText_chain_mid :
    ∀ lines rest : List PyStr, List.Chain' noStopPair lines →
      stopLook rest = true →
      collectText (lines ++ [] :: rest)
        = (lines.map rstripL ++ [[]], rest) := by
  intro lines
  induction lines with
  | nil =>
    intro rest _ hstop
    have h0 : stopLook ([] :: rest) = false := by
      cases rest with
      | nil => rfl
      | cons b r =>
        show (pyIsDigitStr (stripL []) && timePatternMatch (stripL b)) = false
        rw [show pyIsDigitStr (stripL []) = false from by decide]
        simp
    show collectText ([] :: rest) = ([[]], rest)
    rw [show collectText ([] :: rest)
        = (rstripL [] :: (collectText rest).1, (collectText rest).2) from by
      simp [collectText, h0]]
    rw [collectText_stop hstop]
    rfl
  | cons l ls ih =>
    intro rest hch hstop
    have hfalse : stopLook (l :: (ls ++ [] :: rest)) = false := by
      cases ls with
      | nil => exact stopLook_snd_nil l rest
      | cons l2 ls2 =>
        exact stopLook_false_of_noStopPair (List.chain'_cons.mp hch).1 _
    show collectText (l :: (ls ++ [] :: rest)) = _
    rw [show collectText (l :: (ls ++ [] :: rest))
        = (rstripL l :: (collectText (ls ++ [] :: rest)).1,
           (collectText (ls ++ [] :: rest)).2) from by
      simp [collectText, hfalse]]
    rw [ih rest hch.tail hstop]
    simp

theorem pyJoin_append_nil_last (sep : PyStr) :
    ∀ L : List PyStr, L ≠ [] →
      pyJoin sep (L ++ [[]]) = pyJoin sep L ++ sep := by
  intro L
  induction L with
  | nil => intro h; exact absurd rfl h
  | cons x xs ih =>
    intro _
    cases xs with
    | nil => simp [pyJoin]
    | cons y ys =>
      show pyJoin sep (x :: ((y :: ys) ++ [[]]))
          = (x ++ sep ++ pyJoin sep (y :: ys)) ++ sep
      rw [show (x :: ((y :: ys) ++ [[]]) : List PyStr)
          = x :: y :: (ys ++ [[]]) from by simp]
      rw [show pyJoin sep (x :: y :: (ys ++ [[]]))
          = x ++ sep ++ pyJoin sep (y :: (ys ++ [[]])) from rfl]
      rw [show (y :: (ys ++ [[]]) : List PyStr) = (y :: ys) ++ [[]] from by simp]
      rw [ih (by simp)]
      simp

theorem pyJoin_head_ne_nil (sep : PyStr) (x : PyStr) (rest : List PyStr)
    (hx : x ≠ []) : (pyJoin sep (x :: rest)).head? = x.head? := by
  cases rest with
  | nil => rfl
  | cons y ys =>
    show (x ++ sep ++ pyJoin sep (y :: ys)).head? = x.head?
    rw [List.append_assoc, List.head?_append_of_ne_nil x hx]

theorem pyJoin_getLast (sep : PyStr) :
    ∀ (L : List PyStr) (t : PyStr), L.getLast? = some t → t ≠ [] →
      (pyJoin sep L).getLast? = t.getLast? ∧ pyJoin sep L ≠ [] := by
  intro L
  induction L with
  | nil => intro t ht _; simp at ht
  | cons x xs ih =>
    intro t ht hne
    cases xs with
    | nil =>
      have hx : x = t := by simpa using ht
      subst hx
      exact ⟨rfl, hne⟩
    | cons y ys =>
      have ht' : (y :: ys).getLast? = some t := by
        rw [← ht]; simp [List.getLast?_cons_cons]
      obtain ⟨h1, h2⟩ := ih t ht' hne
      constructor
      · show (x ++ sep ++ pyJoin sep (y :: ys)).getLast? = t.getLast?
        rw [List.getLast?_append_of_ne_nil _ h2, h1]
      · show x ++ sep ++ pyJoin sep (y :: ys) ≠ []
        simp [h2]

/-- Splitting a `"\n"`-join on `"\n"` recovers the pieces when no
piece contains a newline. -/
theorem pySplit_join :
    ∀ L : List PyStr, L ≠ [] → (∀ l ∈ L, ∀ c ∈ l, c ≠ '\n') →
      pySplit ['\n'] (pyJoin ['\n'] L) = L := by
  intro L
  induction L with
  | nil => intro h; exact absurd rfl h
  | cons x xs ih =>
    intro _ hc
    cases xs with
    | nil =>
      show pySplit ['\n'] x = [x]
      exact pySplit_no_sep (by decide) (fun c hcx => hc x (by simp) c hcx)
    | cons y ys =>
      show pySplit ['\n'] (x ++ ['\n'] ++ pyJoin ['\n'] (y :: ys)) = x :: y :: ys
      unfold pySplit
      rw [splitGo_match x [] _ (fun c hcx => hc x (by simp) c hcx)]
      have hrec := ih (by simp) (fun l hl c hc' => hc l (by simp [hl]) c hc')
      unfold pySplit at hrec
      rw [hrec]
      simp

/-- Stripping a joined body with a trailing `"\n"` removes exactly
that newline when the body starts and ends with non-whitespace. -/
theorem stripL_append_newline {J : PyStr}
    (hh : ∀ c ∈ J.head?, pyIsWs c = false)
    (hl : ∀ c ∈ J.getLast?, pyIsWs c = false) (hne : J ≠ []) :
    stripL (J ++ ['\n']) = J := by
  unfold stripL rstripL
  have h1 : lstripL (J ++ ['\n']) = J ++ ['\n'] := by
    cases J with
    | nil => exact absurd rfl hne
    | cons c cs => exact lstripL_cons_of_not_ws (hh c rfl) _
  rw [h1]
  rw [show (J ++ ['\n']).reverse = '\n' :: J.reverse from by simp]
  rw [lstripL_cons_of_ws (by decide)]
  have h2 : lstripL J.reverse = J.reverse := by
    cases hr : J.reverse with
    | nil => rfl
    | cons c cs =>
      refine lstripL_cons_of_not_ws ?_ cs
      apply hl
      rw [show J.getLast? = J.reverse.head? from (List.head?_reverse J).symm, hr]
      rfl
  rw [h2, List.reverse_reverse]

theorem stripL_natToChars (n : ℕ) : stripL (natToChars n) = natToChars n :=
  stripL_of_no_ws (fun c hc => isAsciiDigit_not_ws (natToChars_all_digits n c hc))

theorem pyIsDigitStr_natToChars (n : ℕ) :
    pyIsDigitStr (natToChars n) = true := by
  unfold pyIsDigitStr
  rw [List.all_eq_true.mpr (natToChars_all_digits n)]
  cases hn : natToChars n with
  | nil => exact absurd hn (natToChars_ne_nil n)
  | cons c cs => rfl

/-- The four field values `_format_time` extracts from a millisecond
total, each within its digit-count bound. -/
theorem format_fields_bounds {ms : ℕ} (h : ms < 360000000) :
    ms / 1000 / 3600 ≤ 99 ∧ ms / 1000 % 3600 / 60 ≤ 99
      ∧ ms / 1000 % 60 ≤ 99 ∧ ms % 1000 ≤ 999 := by
  omega

theorem to_srt_format_eq_render (tc : TimeCode) :
    tc.to_srt_format
      = renderTimeFields (tc.startMs / 1000 / 3600) (tc.startMs / 1000 % 3600 / 60)
          (tc.startMs / 1000 % 60) (tc.startMs % 1000)
        ++ " --> ".data
        ++ renderTimeFields (tc.endMs / 1000 / 3600) (tc.endMs / 1000 % 3600 / 60)
          (tc.endMs / 1000 % 60) (tc.endMs % 1000) := rfl

theorem renderTimeFields_head {h m s ms : ℕ} (hh : h ≤ 99) :
    ∃ c, (renderTimeFields h m s ms).head? = some c ∧ isAsciiDigit c = true := by
  obtain ⟨a1, a2, hpa, da1, da2⟩ := pad2_two_digits hh
  refine ⟨a1, ?_, da1⟩
  rw [show renderTimeFields h m s ms
      = pad2 h ++ (':' :: pad2 m ++ ':' :: pad2 s ++ ',' :: pad3 ms)
    from by simp [renderTimeFields]]
  rw [hpa]
  rfl

theorem renderTimeFields_last {h m s ms : ℕ} (hms : ms ≤ 999) :
    ∃ c, (renderTimeFields h m s ms).getLast? = some c ∧ isAsciiDigit c = true := by
  obtain ⟨d1, d2, d3, hpd, dd1, dd2, dd3⟩ := pad3_three_digits hms
  refine ⟨d3, ?_, dd3⟩
  rw [show renderTimeFields h m s ms
      = (pad2 h ++ ':' :: pad2 m ++ ':' :: pad2 s ++ [',']) ++ pad3 ms
    from by simp [renderTimeFields]]
  rw [hpd]
  rw [List.getLast?_append_of_ne_nil _ (by simp)]
  rfl

theorem to_srt_format_strip {tc : TimeCode} (h1 : tc.startMs < 360000000)
    (h2 : tc.endMs < 360000000) :
    stripL tc.to_srt_format = tc.to_srt_format := by
  obtain ⟨hh1, _, _, _⟩ := format_fields_bounds h1
  obtain ⟨_, _, _, hms2⟩ := format_fields_bounds h2
  obtain ⟨c1, hc1, dc1⟩ :=
    @renderTimeFields_head (tc.startMs / 1000 / 3600)
      (tc.startMs / 1000 % 3600 / 60) (tc.startMs / 1000 % 60)
      (tc.startMs % 1000) hh1
  obtain ⟨c2, hc2, dc2⟩ :=
    @renderTimeFields_last (tc.endMs / 1000 / 3600)
      (tc.endMs / 1000 % 3600 / 60) (tc.endMs / 1000 % 60)
      (tc.endMs % 1000) hms2
  apply stripL_of_ends
  · intro c hc
    rw [to_srt_format_eq_render] at hc
    rw [List.append_assoc,
      List.head?_append_of_ne_nil _ (by
        intro hnil
        rw [hnil] at hc1
        exact absurd hc1 (by simp))] at hc
    rw [hc1] at hc
    have hcc : c1 = c := by simpa using hc
    subst hcc
    exact isAsciiDigit_not_ws dc1
  · intro c hc
    rw [to_srt_format_eq_render] at hc
    rw [List.getLast?_append_of_ne_nil _ (by
        intro hnil
        rw [hnil] at hc2
        exact absurd hc2 (by simp))] at hc
    rw [hc2] at hc
    have hcc : c2 = c := by simpa using hc
    subst hcc
    exact isAsciiDigit_not_ws dc2

theorem to_srt_format_no_newline {tc : TimeCode} (h1 : tc.startMs < 360000000)
    (h2 : tc.endMs < 360000000) :
    ∀ c ∈ tc.to_srt_format, c ≠ '\n' := by
  obtain ⟨ha1, hb1, hc1, hd1⟩ := format_fields_bounds h1
  obtain ⟨ha2, hb2, hc2, hd2⟩ := format_fields_bounds h2
  intro c hc
  rw [to_srt_format_eq_render] at hc
  rcases List.mem_append.mp hc with hm | hm
  · rcases List.mem_append.mp hm with hm2 | hm2
    · rcases renderTimeFields_chars ha1 hb1 hc1 hd1 c hm2 with hd | rfl | rfl
      · exact (isAsciiDigit_ne hd).2.2.2
      · decide
      · decide
    · rcases (by simpa using hm2 :
          c = ' ' ∨ c = '-' ∨ c = '-' ∨ c = '>' ∨ c = ' ') with
        rfl | rfl | rfl | rfl | rfl <;> decide
  · rcases renderTimeFields_chars ha2 hb2 hc2 hd2 c hm with hd | rfl | rfl
    · exact (isAsciiDigit_ne hd).2.2.2
    · decide
    · decide

theorem natToChars_no_newline (n : ℕ) : ∀ c ∈ natToChars n, c ≠ '\n' :=
  fun c hc => (isAsciiDigit_ne (natToChars_all_digits n c hc)).2.2.2

theorem trimTrailingEmpty_append_nil (xs : List PyStr) :
    trimTrailingEmpty (xs ++ [[]]) = trimTrailingEmpty xs := by
  unfold trimTrailingEmpty
  rw [show ((xs ++ [[]] : List PyStr)).reverse = [] :: xs.reverse from by simp]
  rw [List.dropWhile_cons]
  rw [if_pos (show (stripL ([] : PyStr)).isEmpty = true from by decide)]

theorem trimTrailingEmpty_of_last_nonblank {xs : List PyStr} {t : PyStr}
    (ht : xs.getLast? = some t) (hne : stripL t ≠ []) :
    trimTrailingEmpty xs = xs := by
  unfold trimTrailingEmpty
  have hhead : xs.reverse.head? = some t := by
    rw [List.head?_reverse]; exact ht
  cases hr : xs.reverse with
  | nil => rw [hr] at hhead; exact absurd hhead (by simp)
  | cons a l =>
    have ha : a = t := by rw [hr] at hhead; simpa using hhead
    subst ha
    rw [List.dropWhile_cons]
    rw [if_neg (by
      intro hab
      exact hne (by simpa using hab))]
    rw [← hr, List.reverse_reverse]

theorem stripL_ne_nil_of_rstrip_fixed {t : PyStr} (hr : rstripL t = t)
    (hne : t ≠ []) : stripL t ≠ [] := by
  intro h
  have hall := (stripL_eq_nil_iff t).mp h
  have : rstripL t = [] := (rstripL_eq_nil_iff t).mpr hall
  rw [hr] at this
  exact hne this

theorem fieldsToTimeCode_format (a b : ℕ) :
    fieldsToTimeCode
      (⟨((a / 1000 / 3600 : ℕ) : ℤ), ((a / 1000 % 3600 / 60 : ℕ) : ℤ),
        ((a / 1000 % 60 : ℕ) : ℤ), ((a % 1000 : ℕ) : ℤ)⟩,
       ⟨((b / 1000 / 3600 : ℕ) : ℤ), ((b / 1000 % 3600 / 60 : ℕ) : ℤ),
        ((b / 1000 % 60 : ℕ) : ℤ), ((b % 1000 : ℕ) : ℤ)⟩) = ⟨a, b⟩ := by
  unfold fieldsToTimeCode TimeFields.toMs
  simp only []
  congr 1 <;> omega

theorem isEmpty_false_of_ne_nil {α : Type} {l : List α} (h : l ≠ []) :
    l.isEmpty = false := by
  cases l with
  | nil => exact absurd rfl h
  | cons c cs => rfl

/-- `_parse_block` on lines whose leading index line is non-blank,
with all five gate conditions supplied. -/
theorem parse_block_cons_eq (idxLine timeLine : PyStr) (rest2 : List PyStr)
    (h1 : (stripL idxLine).isEmpty = false)
    (h2 : pyIsDigitStr (stripL idxLine) = true)
    (h3 : timePatternMatch (stripL timeLine) = true)
    (fg : TimeFields × TimeFields)
    (h4 : from_srt_time (stripL timeLine) = some fg)
    (h5 : (trimTrailingEmpty (collectText rest2).1).isEmpty = false) :
    parse_block (idxLine :: timeLine :: rest2)
      = .ok (some ⟨digitsVal (stripL idxLine), fieldsToTimeCode fg,
                   trimTrailingEmpty (collectText rest2).1, none, false⟩,
             (collectText rest2).2) := by
  unfold parse_block
  rw [List.dropWhile_cons, if_neg (by simp [h1])]
  simp only [h2, h3, h4, h5]
  simp

theorem map_rstrip_id {lines : List PyStr} (hrs : ∀ l ∈ lines, rstripL l = l) :
    lines.map rstripL = lines := by
  conv_rhs => rw [← List.map_id lines]
  exact List.map_congr_left hrs

theorem trimTrailing_lines_of_safe {lines : List PyStr} (hne : lines ≠ [])
    (hrs : ∀ l ∈ lines, rstripL l = l) (hlast : lines.getLast? ≠ some []) :
    trimTrailingEmpty lines = lines := by
  have hg : lines.getLast? = some (lines.getLast hne) :=
    List.getLast?_eq_getLast lines hne
  apply trimTrailingEmpty_of_last_nonblank hg
  apply stripL_ne_nil_of_rstrip_fixed (hrs _ (List.getLast_mem hne))
  intro h0
  rw [h0] at hg
  exact hlast hg

theorem bare_eq_of_meta {b : SubtitleBlock} (hl : b.language = none)
    (hs : b.isSdh = false) :
    (⟨b.index, b.timeCode, b.lines, none, false⟩ : SubtitleBlock) = b := by
  cases b
  simp_all

/-- `_parse_block` on a wire-safe block's own lines, given the
established text-collection result. -/
theorem parse_block_wire {b : SubtitleBlock} {body rem : List PyStr}
    (hsafe : WireSafeBlock b)
    (hcoll1 : trimTrailingEmpty (collectText body).1 = b.lines)
    (hcoll2 : (collectText body).2 = rem) :
    parse_block (natToChars b.index :: b.timeCode.to_srt_format :: body)
      = .ok (some ⟨b.index, b.timeCode, b.lines, none, false⟩, rem) := by
  obtain ⟨hne, hrs, hnl, hlast, hch, hms1, hms2, hlang, hsdh⟩ := hsafe
  obtain ⟨ha1, hb1, hc1, hd1⟩ := format_fields_bounds hms1
  obtain ⟨ha2, hb2, hc2, hd2⟩ := format_fields_bounds hms2
  have hstrip_idx := stripL_natToChars b.index
  have hstrip_tl := to_srt_format_strip hms1 hms2
  have he1 : (stripL (natToChars b.index)).isEmpty = false := by
    rw [hstrip_idx]
    exact isEmpty_false_of_ne_nil (natToChars_ne_nil b.index)
  have he2 : pyIsDigitStr (stripL (natToChars b.index)) = true := by
    rw [hstrip_idx]
    exact pyIsDigitStr_natToChars b.index
  have he3 : timePatternMatch (stripL b.timeCode.to_srt_format) = true := by
    rw [hstrip_tl, to_srt_format_eq_render]
    exact timePatternMatch_render ha1 hb1 hc1 hd1 ha2 hb2 hc2 hd2
  have he4 : from_srt_time (stripL b.timeCode.to_srt_format)
      = some (⟨((b.timeCode.startMs / 1000 / 3600 : ℕ) : ℤ),
               ((b.timeCode.startMs / 1000 % 3600 / 60 : ℕ) : ℤ),
               ((b.timeCode.startMs / 1000 % 60 : ℕ) : ℤ),
               ((b.timeCode.startMs % 1000 : ℕ) : ℤ)⟩,
              ⟨((b.timeCode.endMs / 1000 / 3600 : ℕ) : ℤ),
               ((b.timeCode.endMs / 1000 % 3600 / 60 : ℕ) : ℤ),
               ((b.timeCode.endMs / 1000 % 60 : ℕ) : ℤ),
               ((b.timeCode.endMs % 1000 : ℕ) : ℤ)⟩) := by
    rw [hstrip_tl, to_srt_format_eq_render]
    exact from_srt_time_render ha1 hb1 hc1 hd1 ha2 hb2 hc2 hd2
  have he5 : (trimTrailingEmpty (collectText body).1).isEmpty = false := by
    rw [hcoll1]
    exact isEmpty_false_of_ne_nil hne
  rw [parse_block_cons_eq (natToChars b.index) b.timeCode.to_srt_format body
    he1 he2 he3 _ he4 he5]
  rw [hstrip_idx, digitsVal_natToChars b.index, hcoll1, hcoll2,
    fieldsToTimeCode_format]

/-- `_parse_block` on the wire lines of an interior block: the block
is recovered and the remainder starts at the next block's header. -/
theorem parse_block_wire_mid {b : SubtitleBlock} (hsafe : WireSafeBlock b)
    {rest : List PyStr} (hstop : stopLook rest = true) :
    parse_block (natToChars b.index :: b.timeCode.to_srt_format
        :: (b.lines ++ [] :: rest))
      = .ok (some ⟨b.index, b.timeCode, b.lines, none, false⟩, rest) := by
  obtain ⟨hne, hrs, hnl, hlast, hch, -, -, -, -⟩ := id hsafe
  apply parse_block_wire hsafe
  · rw [collectText_chain_mid b.lines rest hch hstop]
    show trimTrailingEmpty (b.lines.map rstripL ++ [[]]) = b.lines
    rw [map_rstrip_id hrs, trimTrailingEmpty_append_nil,
      trimTrailing_lines_of_safe hne hrs hlast]
  · rw [collectText_chain_mid b.lines rest hch hstop]

/-- `_parse_block` on the wire lines of the final block: the block is
recovered and no input remains. -/
theorem parse_block_wire_last {b : SubtitleBlock} (hsafe : WireSafeBlock b) :
    parse_block (natToChars b.index :: b.timeCode.to_srt_format :: b.lines)
      = .ok (some ⟨b.index, b.timeCode, b.lines, none, false⟩, []) := by
  obtain ⟨hne, hrs, hnl, hlast, hch, -, -, -, -⟩ := id hsafe
  apply parse_block_wire hsafe
  · rw [collectText_chain_last b.lines hch]
    show trimTrailingEmpty (b.lines.map rstripL) = b.lines
    rw [map_rstrip_id hrs, trimTrailing_lines_of_safe hne hrs hlast]
  · rw [collectText_chain_last b.lines hch]

theorem blockWireLines_ne_nil (b : SubtitleBlock) : blockWireLines b ≠ [] := by
  simp [blockWireLines]

theorem flatMap_wire_ne_nil {bs : List SubtitleBlock} (h : bs ≠ []) :
    bs.flatMap blockWireLines ≠ [] := by
  cases bs with
  | nil => exact absurd rfl h
  | cons b bs2 =>
    rw [List.flatMap_cons]
    intro habs
    rcases List.append_eq_nil.mp habs with ⟨h1, _⟩
    exact blockWireLines_ne_nil b h1

theorem wireTail_singleton (b : SubtitleBlock) :
    wireTail [b]
      = natToChars b.index :: b.timeCode.to_srt_format :: b.lines := by
  unfold wireTail
  rw [show ([b] : List SubtitleBlock).flatMap blockWireLines
      = blockWireLines b from by simp]
  rw [show blockWireLines b
      = (natToChars b.index :: b.timeCode.to_srt_format :: b.lines) ++ [[]]
    from by simp [blockWireLines]]
  rw [List.dropLast_concat]

theorem wireTail_cons {bs : List SubtitleBlock} (b : SubtitleBlock)
    (h : bs ≠ []) :
    wireTail (b :: bs)
      = natToChars b.index :: b.timeCode.to_srt_format
          :: (b.lines ++ [] :: wireTail bs) := by
  unfold wireTail
  rw [List.flatMap_cons,
    List.dropLast_append_of_ne_nil _ (flatMap_wire_ne_nil h)]
  simp [blockWireLines]

theorem stopLook_wireTail (b : SubtitleBlock) (bs : List SubtitleBlock)
    (hms1 : b.timeCode.startMs < 360000000)
    (hms2 : b.timeCode.endMs < 360000000) :
    stopLook (wireTail (b :: bs)) = true := by
  obtain ⟨ha1, hb1, hc1, hd1⟩ := format_fields_bounds hms1
  obtain ⟨ha2, hb2, hc2, hd2⟩ := format_fields_bounds hms2
  have hdig : pyIsDigitStr (stripL (natToChars b.index)) = true := by
    rw [stripL_natToChars]
    exact pyIsDigitStr_natToChars b.index
  have htime : timePatternMatch (stripL b.timeCode.to_srt_format) = true := by
    rw [to_srt_format_strip hms1 hms2, to_srt_format_eq_render]
    exact timePatternMatch_render ha1 hb1 hc1 hd1 ha2 hb2 hc2 hd2
  cases hbs : bs with
  | nil =>
    rw [wireTail_singleton]
    show (pyIsDigitStr (stripL (natToChars b.index))
        && timePatternMatch (stripL b.timeCode.to_srt_format)) = true
    rw [hdig, htime]
    rfl
  | cons b2 bs2 =>
    rw [wireTail_cons b (by simp)]
    show (pyIsDigitStr (stripL (natToChars b.index))
        && timePatternMatch (stripL b.timeCode.to_srt_format)) = true
    rw [hdig, htime]
    rfl

/-- The block loop of `_parse_content` recovers every wire-safe block
list from its serialized line list, given enough fuel. -/
theorem parseBlocksF_wire :
    ∀ bs : List SubtitleBlock, (∀ b ∈ bs, WireSafeBlock b) →
      ∀ fuel, (wireTail bs).length < fuel →
        parseBlocksF fuel (wireTail bs) = .ok bs := by
  intro bs
  induction bs with
  | nil =>
    intro _ fuel hf
    cases fuel with
    | zero => exact absurd hf (by simp)
    | succ f => rfl
  | cons b bs ih =>
    intro hsafe fuel hf
    have hsb := hsafe b (by simp)
    obtain ⟨-, -, -, -, -, -, -, hlang, hsdh⟩ := id hsb
    cases fuel with
    | zero => exact absurd hf (by omega)
    | succ f =>
      cases bs with
      | nil =>
        rw [wireTail_singleton] at hf ⊢
        have hpb := parse_block_wire_last hsb
        simp only [parseBlocksF, hpb]
        cases f with
        | zero => simp at hf
        | succ f2 =>
          rw [show parseBlocksF (f2 + 1) [] = .ok [] from rfl]
          rw [bare_eq_of_meta hlang hsdh]
          rfl
      | cons b2 bs2 =>
        rw [wireTail_cons b (by simp)] at hf ⊢
        have hsb2 := hsafe b2 (by simp)
        obtain ⟨-, -, -, -, -, hm1, hm2, -, -⟩ := id hsb2
        have hstop : stopLook (wireTail (b2 :: bs2)) = true :=
          stopLook_wireTail b2 bs2 hm1 hm2
        have hpb := parse_block_wire_mid hsb hstop
        simp only [parseBlocksF, hpb]
        rw [ih (fun x hx => hsafe x (by simp [hx])) f (by
          rw [List.length_cons, List.length_cons, List.length_append,
            List.length_cons] at hf
          omega)]
        rw [bare_eq_of_meta hlang hsdh]
        rfl

theorem getLast_cons_of_ne_nil {α : Type} (a : α) {l : List α} (h : l ≠ []) :
    (a :: l).getLast? = l.getLast? := by
  cases l with
  | nil => exact absurd rfl h
  | cons x xs => rw [List.getLast?_cons_cons]

/-- A non-empty `rstrip`-fixed string ends in a non-whitespace
character. -/
theorem rstrip_fixed_last_not_ws {t : PyStr} (hr : rstripL t = t)
    (hne : t ≠ []) : ∀ c ∈ t.getLast?, pyIsWs c = false := by
  intro c hc
  by_contra habs
  have hws : pyIsWs c = true := by
    cases hwc : pyIsWs c with
    | false => exact absurd hwc habs
    | true => rfl
  have hrev : t.reverse.head? = some c := by
    rw [List.head?_reverse]
    exact hc
  cases hrv : t.reverse with
  | nil => rw [hrv] at hrev; exact absurd hrev (by simp)
  | cons d ds =>
    have hd : d = c := by rw [hrv] at hrev; simpa using hrev
    subst hd
    have hlt := lstripL_length_lt hws ds
    have hlen : (rstripL t).length < t.length := by
      unfold rstripL
      rw [hrv]
      calc (lstripL (d :: ds)).reverse.length
          = (lstripL (d :: ds)).length := by simp
        _ < (d :: ds).length := hlt
        _ = t.length := by rw [← hrv]; simp
    rw [hr] at hlen
    omega

theorem wireTail_cons_shape (b : SubtitleBlock) (bs : List SubtitleBlock) :
    ∃ r, wireTail (b :: bs)
      = natToChars b.index :: b.timeCode.to_srt_format :: r := by
  cases bs with
  | nil => exact ⟨b.lines, wireTail_singleton b⟩
  | cons b2 bs2 => exact ⟨_, wireTail_cons b (by simp)⟩

theorem mem_wireTail {bs : List SubtitleBlock} {l : PyStr}
    (hl : l ∈ wireTail bs) :
    ∃ b ∈ bs, l = natToChars b.index ∨ l = b.timeCode.to_srt_format
      ∨ l ∈ b.lines ∨ l = [] := by
  have hmem : l ∈ bs.flatMap blockWireLines :=
    List.Sublist.mem hl (List.dropLast_sublist _)
  obtain ⟨b, hb, hlb⟩ := List.mem_flatMap.mp hmem
  refine ⟨b, hb, ?_⟩
  unfold blockWireLines at hlb
  rcases (by simpa using hlb :
      l = natToChars b.index ∨ l = b.timeCode.to_srt_format
        ∨ l ∈ b.lines ∨ l = []) with h | h | h | h
  · exact Or.inl h
  · exact Or.inr (Or.inl h)
  · exact Or.inr (Or.inr (Or.inl h))
  · exact Or.inr (Or.inr (Or.inr h))

theorem wireTail_no_newline {bs : List SubtitleBlock}
    (hsafe : ∀ b ∈ bs, WireSafeBlock b) :
    ∀ l ∈ wireTail bs, ∀ c ∈ l, c ≠ '\n' := by
  intro l hl c hc
  obtain ⟨b, hb, hcase⟩ := mem_wireTail hl
  obtain ⟨-, -, hnl, -, -, hm1, hm2, -, -⟩ := hsafe b hb
  rcases hcase with rfl | rfl | hmem | rfl
  · exact natToChars_no_newline b.index c hc
  · exact to_srt_format_no_newline hm1 hm2 c hc
  · exact hnl l hmem c hc
  · simp at hc

/-- The last wire line before the trailing separator is the last text
line of the last block. -/
theorem wireTail_getLast :
    ∀ bs : List SubtitleBlock, (∀ b ∈ bs, WireSafeBlock b) →
      ∀ b0 bs0, bs = b0 :: bs0 →
      ∃ b t, b ∈ bs ∧ t ∈ b.lines ∧ rstripL t = t ∧ t ≠ []
        ∧ (wireTail bs).getLast? = some t := by
  intro bs
  induction bs with
  | nil => intro _ b0 bs0 h; exact absurd h (by simp)
  | cons b bs ih =>
    intro hsafe b0 bs0 _
    cases bs with
    | nil =>
      obtain ⟨hne, hrs, -, hlast, -, -, -, -, -⟩ := hsafe b (by simp)
      have hg : b.lines.getLast? = some (b.lines.getLast hne) :=
        List.getLast?_eq_getLast _ hne
      refine ⟨b, b.lines.getLast hne, by simp,
        List.getLast_mem hne, hrs _ (List.getLast_mem hne), ?_, ?_⟩
      · intro h0
        rw [h0] at hg
        exact hlast hg
      · rw [wireTail_singleton, List.getLast?_cons_cons,
          getLast_cons_of_ne_nil _ hne]
        exact hg
    | cons b2 bs2 =>
      obtain ⟨b', t, hb', ht, hrt, htne, hwt⟩ :=
        ih (fun x hx => hsafe x (by simp [hx])) b2 bs2 rfl
      refine ⟨b', t, by simp [List.mem_cons_of_mem, hb'], ht, hrt, htne, ?_⟩
      have hWne : wireTail (b2 :: bs2) ≠ [] := by
        intro h0
        rw [h0] at hwt
        exact absurd hwt (by simp)
      rw [wireTail_cons b (by simp), List.getLast?_cons_cons,
        getLast_cons_of_ne_nil _ (by simp),
        List.getLast?_append_of_ne_nil _ (by simp),
        getLast_cons_of_ne_nil _ hWne]
      exact hwt

theorem flatMap_wire_getLast :
    ∀ bs : List SubtitleBlock, bs ≠ [] →
      (bs.flatMap blockWireLines).getLast? = some [] := by
  intro bs
  induction bs with
  | nil => intro h; exact absurd rfl h
  | cons b bs ih =>
    intro _
    rw [List.flatMap_cons]
    cases bs with
    | nil =>
      rw [show ([] : List SubtitleBlock).flatMap blockWireLines = [] from rfl,
        List.append_nil]
      rw [show blockWireLines b
          = (natToChars b.index :: b.timeCode.to_srt_format :: b.lines) ++ [[]]
        from by simp [blockWireLines]]
      rw [List.getLast?_concat]
    | cons b2 bs2 =>
      rw [List.getLast?_append_of_ne_nil _ (flatMap_wire_ne_nil (by simp))]
      exact ih (by simp)

theorem flatMap_wire_eq {bs : List SubtitleBlock} (h : bs ≠ []) :
    bs.flatMap blockWireLines = wireTail bs ++ [[]] := by
  unfold wireTail
  have hg := flatMap_wire_getLast bs h
  have hne2 : bs.flatMap blockWireLines ≠ [] := flatMap_wire_ne_nil h
  conv_lhs => rw [← List.dropLast_append_getLast hne2]
  congr 1
  rw [List.getLast?_eq_getLast _ hne2] at hg
  have : (bs.flatMap blockWireLines).getLast hne2 = [] := by
    simpa using hg
  rw [this]

/-- Round trip over the block list: the serialized wire text of a
list of wire-safe blocks parses back to exactly those blocks. -/
theorem parse_content_wire (bs : List SubtitleBlock)
    (hsafe : ∀ b ∈ bs, WireSafeBlock b) :
    parse_content (pyJoin ['\n'] (bs.flatMap blockWireLines)) = .ok bs := by
  cases bs with
  | nil => decide
  | cons b0 bs0 =>
    obtain ⟨r, hshape⟩ := wireTail_cons_shape b0 bs0
    have hWne : wireTail (b0 :: bs0) ≠ [] := by rw [hshape]; simp
    obtain ⟨b', t, hb', ht, hrt, htne, hwt⟩ :=
      wireTail_getLast (b0 :: bs0) hsafe b0 bs0 rfl
    obtain ⟨hJlast, hJne⟩ :=
      pyJoin_getLast ['\n'] (wireTail (b0 :: bs0)) t hwt htne
    have hjoin : pyJoin ['\n'] ((b0 :: bs0).flatMap blockWireLines)
        = pyJoin ['\n'] (wireTail (b0 :: bs0)) ++ ['\n'] := by
      rw [flatMap_wire_eq (by simp)]
      exact pyJoin_append_nil_last ['\n'] _ hWne
    have hhead : ∀ c ∈ (pyJoin ['\n'] (wireTail (b0 :: bs0))).head?,
        pyIsWs c = false := by
      intro c hc
      rw [hshape,
        pyJoin_head_ne_nil ['\n'] _ _ (natToChars_ne_nil b0.index)] at hc
      have hcm : c ∈ natToChars b0.index := List.mem_of_mem_head? hc
      exact isAsciiDigit_not_ws (natToChars_all_digits _ c hcm)
    have hlastc : ∀ c ∈ (pyJoin ['\n'] (wireTail (b0 :: bs0))).getLast?,
        pyIsWs c = false := by
      intro c hc
      rw [hJlast] at hc
      exact rstrip_fixed_last_not_ws hrt htne c hc
    have hstrip : stripL (pyJoin ['\n'] (wireTail (b0 :: bs0)) ++ ['\n'])
        = pyJoin ['\n'] (wireTail (b0 :: bs0)) :=
      stripL_append_newline hhead hlastc hJne
    have hsplit : pySplit ['\n'] (pyJoin ['\n'] (wireTail (b0 :: bs0)))
        = wireTail (b0 :: bs0) :=
      pySplit_join _ hWne (wireTail_no_newline hsafe)
    unfold parse_content
    rw [hjoin, hstrip, hsplit]
    exact parseBlocksF_wire (b0 :: bs0) hsafe _ (Nat.lt_succ_self _)

/-- C2 (amended): parsing the serialized wire text of a document
recovers exactly the document's block list, provided every block is
wire-safe: its text is non-empty, every line is `rstrip`-fixed and
newline-free, the final line does not strip to blank, no consecutive
line pair looks like a bare-integer index line followed by a
time-pattern line (the spec's stated condition), both millisecond
totals fit the serializer's two-digit hour field, and the block
carries no parse-time metadata.  The spec's condition alone is not
sufficient: the parser also `rstrip`s each text line, drops interior
blank-only lines' trailing whitespace and trailing blank lines, so
e.g. a line with a trailing space breaks the round trip. -/
theorem serialize_parse_round_trip (doc : SRTDocument)
    (hsafe : ∀ b ∈ doc.blocks, WireSafeBlock b) :
    parse_content doc.to_srt_format = .ok doc.blocks := by
  unfold SRTDocument.to_srt_format
  exact parse_content_wire doc.blocks hsafe

/-- C2 (counterexample): a document whose lines contain no
bare-integer/time-code pair — satisfying the spec's stated
precondition — still fails the round trip when a text line ends in a
space: the parser returns the line `rstrip`-ped. -/
theorem round_trip_fails_on_trailing_space :
    List.Chain' noStopPair ["a ".data]
      ∧ parse_content exampleTrailingSpaceDoc.to_srt_format
          = .ok [⟨1, ⟨0, 1000⟩, ["a".data], none, false⟩]
      ∧ parse_content exampleTrailingSpaceDoc.to_srt_format
          ≠ .ok exampleTrailingSpaceDoc.blocks :=
  ⟨by decide, by decide, by decide⟩

/-- C2 (witness): the amended round-trip theorem applied to a
concrete two-block document whose blocks are all wire-safe. -/
theorem serialize_parse_round_trip_witness :
    (∀ b ∈ exampleRoundTripDoc.blocks, WireSafeBlock b)
      ∧ parse_content exampleRoundTripDoc.to_srt_format
          = .ok exampleRoundTripDoc.blocks :=
  ⟨by decide, serialize_parse_round_trip exampleRoundTripDoc (by decide)⟩
